import Mathlib

/-!
Verification development for the ITS compiler (its-compiler-js).

The definitions below are a shallow embedding of the TypeScript sources:
`src/security.ts` (SecurityValidator), `src/conditional-evaluator.ts`
(ConditionalEvaluator, the jsep/AST variant), `src/variable-processor.ts`
(VariableProcessor), `src/schema-loader.ts` (SchemaLoader) and
`src/compiler.ts` (ITSCompiler).  JavaScript values are modelled by the
inductive `JSValue`; JavaScript exceptions are modelled by `Except` with
structured error values (one constructor per `throw` site, carrying the
data that the thrown error object carries).  JavaScript numbers are
modelled by `Int` together with an explicit `nan` value; non-integral
doubles do not occur in the verified properties.
-/

set_option maxHeartbeats 1000000

namespace ITS

/-- Model of a JavaScript value as it occurs in templates and variable
stores: JSON-style data plus `undefined` and `NaN`.  Object properties
carry an enumerability flag (`true` = enumerable): `Object.entries` sees
only enumerable own properties while `Object.getOwnPropertyNames` and
`hasOwnProperty` see all own properties.  Objects here are plain
JSON-derived data whose prototype is `Object.prototype`; a property read
or `in` check that misses every own key continues along the prototype
chain and can produce a built-in host value, modelled by the `native`
constructor: `native owner name` is the property `name` inherited from
`owner.prototype` (`Object`, `Array`, `String`, `Number` or `Boolean`).
All of these inherited values are built-in function objects, except that
`native "Object" "__proto__"` stands for the result of the `__proto__`
accessor on a plain object, i.e. the `Object.prototype` object itself.
Reference identity of distinct object/array literals is not modelled
(see `jsStrictEq`); two reads of the same inherited built-in do yield
the same `native` value, matching their shared reference in JS. -/
inductive JSValue where
  | undefined
  | null
  | nan
  | bool (b : Bool)
  | num (n : Int)
  | str (s : String)
  | arr (elems : List JSValue)
  | obj (props : List (String × Bool × JSValue))
  | native (owner name : String)

/-- Own-property list of a variables object: key, enumerability, value. -/
abbrev Props := List (String × Bool × JSValue)

/-- Own-property lookup (any enumerability), as done by
`hasOwnProperty`.  This is only the first, own-key step of a JavaScript
property read or `in` check: both fall through to the prototype chain
when every own key misses (see `objectProtoRead` and the
`*PrototypeNames` lists below). -/
def lookupOwn (props : Props) (key : String) : Option JSValue :=
  match props with
  | [] => none
  | (k, _, v) :: rest => if k = key then some v else lookupOwn rest key

/-- All own-property names, as `Object.getOwnPropertyNames`. -/
def ownNames (props : Props) : List String :=
  props.map (fun p => p.1)

/-- JavaScript truthiness: `undefined`, `null`, `NaN`, `false`, `0` and
the empty string are falsy; every other value (including any object or
array) is truthy. -/
def truthy : JSValue → Bool
  | .undefined => false
  | .null => false
  | .nan => false
  | .bool b => b
  | .num n => n != 0
  | .str s => s ≠ ""
  | .arr _ => true
  | .obj _ => true
  | .native _ _ => true

/-- Own-property names of `Object.prototype`: the tail of the prototype
chain of every plain object, array, string, number and boolean wrapper.
A plain object built by a template/JSON load or an object literal (such
as the merged variables store built by spreading) answers
`name in obj` with `true` for each of these even when `name` is no own
key, and the corresponding read yields the inherited built-in. -/
def objectPrototypeNames : List String :=
  ["constructor", "hasOwnProperty", "isPrototypeOf", "propertyIsEnumerable",
   "toLocaleString", "toString", "valueOf", "__defineGetter__",
   "__defineSetter__", "__lookupGetter__", "__lookupSetter__", "__proto__"]

/-- Own method/constructor names of `Array.prototype` (ES2023), the first
stop of an array's prototype chain before `Object.prototype`. -/
def arrayPrototypeNames : List String :=
  ["constructor", "at", "concat", "copyWithin", "entries", "every", "fill",
   "filter", "find", "findIndex", "findLast", "findLastIndex", "flat",
   "flatMap", "forEach", "includes", "indexOf", "join", "keys",
   "lastIndexOf", "map", "pop", "push", "reduce", "reduceRight", "reverse",
   "shift", "slice", "some", "sort", "splice", "toLocaleString",
   "toReversed", "toSorted", "toSpliced", "toString", "unshift", "values",
   "with"]

/-- Own method/constructor names of `String.prototype` (ES2023), the
first stop of a string's prototype chain before `Object.prototype`. -/
def stringPrototypeNames : List String :=
  ["constructor", "at", "charAt", "charCodeAt", "codePointAt", "concat",
   "endsWith", "includes", "indexOf", "lastIndexOf", "localeCompare",
   "match", "matchAll", "normalize", "padEnd", "padStart", "repeat",
   "replace", "replaceAll", "search", "slice", "split", "startsWith",
   "substr", "substring", "toLocaleLowerCase", "toLocaleUpperCase",
   "toLowerCase", "toString", "toUpperCase", "trim", "trimEnd",
   "trimStart", "valueOf"]

/-- Own method/constructor names of `Number.prototype`. -/
def numberPrototypeNames : List String :=
  ["constructor", "toExponential", "toFixed", "toLocaleString",
   "toPrecision", "toString", "valueOf"]

/-- Own method/constructor names of `Boolean.prototype`. -/
def booleanPrototypeNames : List String :=
  ["constructor", "toString", "valueOf"]

/-- Prototype-chain continuation of a property read on a plain object
whose own keys all missed: a name `Object.prototype` provides yields the
inherited host value, any other name yields nothing (so the full read is
`undefined` and `name in obj` is `false`). -/
def objectProtoRead (key : String) : Option JSValue :=
  if objectPrototypeNames.contains key then some (.native "Object" key)
  else none

/-- Prototype-chain continuation of a non-index property read on an
array: `Array.prototype` first, then `Object.prototype`. -/
def arrayProtoRead (key : String) : Option JSValue :=
  if arrayPrototypeNames.contains key then some (.native "Array" key)
  else objectProtoRead key

/-- Prototype-chain continuation of a non-index property read on a
string: `String.prototype` first, then `Object.prototype`. -/
def stringProtoRead (key : String) : Option JSValue :=
  if stringPrototypeNames.contains key then some (.native "String" key)
  else objectProtoRead key

/-- Prototype-chain continuation of a property read on a number
(`NaN` included): `Number.prototype`, then `Object.prototype`. -/
def numberProtoRead (key : String) : Option JSValue :=
  if numberPrototypeNames.contains key then some (.native "Number" key)
  else objectProtoRead key

/-- Prototype-chain continuation of a property read on a boolean:
`Boolean.prototype`, then `Object.prototype`. -/
def booleanProtoRead (key : String) : Option JSValue :=
  if booleanPrototypeNames.contains key then some (.native "Boolean" key)
  else objectProtoRead key

/-- `typeof v === 'function'`: in this model the only function values are
the inherited prototype built-ins (every `native` except the
`Object.prototype` object delivered by the `__proto__` accessor). -/
def isFunctionValue : JSValue → Bool
  | .native _ n => n ≠ "__proto__"
  | _ => false

mutual

/-- Structural size of a `JSValue`, used as a termination measure for the
recursive validators.  String contents are deliberately not counted, so
that rebuilding a wrapper object around a subvalue (as
`validateVariables` does for array elements) strictly decreases it. -/
def jsSize : JSValue → Nat
  | .arr elems => 1 + elemsSize elems
  | .obj props => 1 + propsSize props
  | _ => 1

/-- Size of an element list (part of the `jsSize` measure). -/
def elemsSize : List JSValue → Nat
  | [] => 0
  | v :: rest => 1 + jsSize v + elemsSize rest

/-- Size of a property list (part of the `jsSize` measure). -/
def propsSize : Props → Nat
  | [] => 0
  | (_, _, v) :: rest => 1 + jsSize v + propsSize rest

end

theorem jsSize_pos (v : JSValue) : 1 ≤ jsSize v := by
  cases v <;> simp [jsSize]

/-- Errors thrown as plain `Error` or `ITSSecurityError` inside
`ConditionalEvaluator.evaluateASTNode` / `validatePropertyAccess` /
jsep parsing.  Each constructor corresponds to one `throw` site. -/
inductive EvalErr where
  | parseError
  | invalidNode
  | undefinedVariable (name : String)
  | nullPropertyAccess
  | unsupportedBinary (op : String)
  | unsupportedLogical (op : String)
  | unsupportedUnary (op : String)
  | unsupportedNode (ty : String)
  | dangerousPropertyAccess (prop : String)
  | functionPropertyAccess
  | indexOutOfBounds (idx : Int)
  deriving Repr, DecidableEq

/-- Structured model of `ITSSecurityError`: one constructor per `throw`
site of the SecurityValidator / ConditionalEvaluator / SchemaLoader,
carrying the data the thrown error object carries. -/
inductive SecErr where
  | templateTooLarge (len : Nat)
  | tooManyContentElements (len : Nat)
  | nestingTooDeep (depth : Nat)
  | maliciousText (blocked : String)
  | expressionTooLong (len : Nat)
  | dangerousExpression (blocked : String)
  | variableNestingTooDeep (path : String)
  | prototypePollution
  | dangerousProperty (prop : String)
  | dangerousVariableName (name : String)
  | arrayTooLarge (path : String) (len : Nat)
  | protocolNotAllowed (protocol : String)
  | dangerousProtocol (protocol : String)
  | localhostBlocked (hostname : String)
  | privateNetworkBlocked (hostname : String)
  | domainNotAllowed (hostname : String)
  | pathTraversal
  | invalidUrl (url : String)
  | conditionalEvaluation (condition : String) (inner : EvalErr)
  | schemaLoadFailed (url : String)
  deriving Repr, DecidableEq

namespace Security

/-- ASCII lower-casing of a character (`String.prototype.toLowerCase` /
the regex `i` flag restricted to the ASCII letters the deny-list uses). -/
def asciiLower (c : Char) : Char :=
  if 'A' ≤ c ∧ c ≤ 'Z' then Char.ofNat (c.toNat + 32) else c

/-- Character list of a string, lower-cased. -/
def lowerChars (s : String) : List Char :=
  s.data.map asciiLower

/-- Lower-cased string (`name.toLowerCase()`). -/
def lowerStr (s : String) : String :=
  String.mk (lowerChars s)

/-- JavaScript `\s` (whitespace class), restricted to its ASCII members. -/
def isJsWs (c : Char) : Bool :=
  c = ' ' || c = '\t' || c = '\n' || c = '\r' || c = '\x0b' || c = '\x0c'

/-- JavaScript `\w` (word character class). -/
def isWordChar (c : Char) : Bool :=
  ('a' ≤ c && c ≤ 'z') || ('A' ≤ c && c ≤ 'Z') || ('0' ≤ c && c ≤ '9') || c = '_'

/-- Hexadecimal digit, on already lower-cased input. -/
def isHexChar (c : Char) : Bool :=
  ('0' ≤ c && c ≤ '9') || ('a' ≤ c && c ≤ 'f')

/-- Line terminators that the regex `.` does not match. -/
def isLineTerm (c : Char) : Bool :=
  c = '\n' || c = '\r' || c = ' ' || c = ' '

/-- Consume the literal `lit` at the head of `s`; return the rest on
success. -/
def dropLit : List Char → List Char → Option (List Char)
  | [], s => some s
  | _ :: _, [] => none
  | p :: ps, c :: cs => if c = p then dropLit ps cs else none

/-- Does `s` start with the literal `lit`? -/
def startsLit (lit s : List Char) : Bool :=
  (dropLit lit s).isSome

/-- Consume a maximal run of `\s` (the deterministic reading of `\s*`
followed by a non-whitespace literal). -/
def dropWs : List Char → List Char
  | [] => []
  | c :: rest => if isJsWs c then dropWs rest else c :: rest

/-- Does the predicate hold at some position (suffix) of `s`?  This is
regex containment: `pattern.test(text)` searches every start position. -/
def anyPosition (p : List Char → Bool) : List Char → Bool
  | [] => p []
  | s@(_ :: rest) => p s || anyPosition p rest

/-- Scanning part of `<script[^>]*>.*?<\/script>`: after the opening tag,
look for `</script>` with no line terminator before it (`.` does not
match line terminators). -/
def scriptCloseAhead : List Char → Bool
  | [] => false
  | s@(c :: rest) => startsLit "</script>".data s || (!isLineTerm c && scriptCloseAhead rest)

/-- Consume `[^>]*>`: skip to just past the first `>`. -/
def consumeToGt : List Char → Option (List Char)
  | [] => none
  | c :: rest => if c = '>' then some rest else consumeToGt rest

/-- Match of `<script[^>]*>.*?<\/script>` at the current position. -/
def scriptTagAt (s : List Char) : Bool :=
  match dropLit "<script".data s with
  | none => false
  | some r =>
    match consumeToGt r with
    | none => false
    | some r2 => scriptCloseAhead r2

/-- Match of `lit1` + `\s*` + `lit2` at the current position (for
patterns such as `javascript\s*:` and `eval\s*\(`). -/
def litWsLitAt (lit1 lit2 : List Char) (s : List Char) : Bool :=
  match dropLit lit1 s with
  | none => false
  | some r => startsLit lit2 (dropWs r)

/-- Match of `data\s*:\s*text\/html` at the current position. -/
def dataHtmlAt (s : List Char) : Bool :=
  match dropLit "data".data s with
  | none => false
  | some r =>
    match dropLit ":".data (dropWs r) with
    | none => false
    | some r2 => startsLit "text/html".data (dropWs r2)

/-- Match of `name\.\w+` at the current position (`name` includes the
trailing dot here). -/
def domPatAt (lit : List Char) (s : List Char) : Bool :=
  match dropLit lit s with
  | none => false
  | some [] => false
  | some (c :: _) => isWordChar c

/-- Exactly `n` hexadecimal digits at the current position (more may
follow; the regexes use `{n}` without anchors). -/
def hexRunAt : Nat → List Char → Bool
  | 0, _ => true
  | _ + 1, [] => false
  | n + 1, c :: rest => isHexChar c && hexRunAt n rest

/-- Match of `\\x[0-9a-fA-F]{2}` at the current position. -/
def escXAt : List Char → Bool
  | '\\' :: 'x' :: rest => hexRunAt 2 rest
  | _ => false

/-- Match of `\\u[0-9a-fA-F]{4}` at the current position. -/
def escUAt : List Char → Bool
  | '\\' :: 'u' :: rest => hexRunAt 4 rest
  | _ => false

/-- Match of `%[0-9a-fA-F]{2}` at the current position. -/
def pctAt : List Char → Bool
  | '%' :: rest => hexRunAt 2 rest
  | _ => false

/-- Does the text match any pattern of the `validateTextContent`
deny-list?  All twelve patterns carry the `i` flag, so matching is done
on the lower-cased character list. -/
def textDenyListHit (text : String) : Bool :=
  let s := lowerChars text
  anyPosition scriptTagAt s ||
  anyPosition (litWsLitAt "javascript".data ":".data) s ||
  anyPosition dataHtmlAt s ||
  anyPosition (litWsLitAt "eval".data "(".data) s ||
  anyPosition (litWsLitAt "function".data "(".data) s ||
  anyPosition (litWsLitAt "settimeout".data "(".data) s ||
  anyPosition (litWsLitAt "setinterval".data "(".data) s ||
  anyPosition (domPatAt "document.".data) s ||
  anyPosition (domPatAt "window.".data) s ||
  anyPosition escXAt s ||
  anyPosition escUAt s ||
  anyPosition pctAt s

/-- SecurityValidator.validateTextContent: throw on any deny-list hit,
surfacing the first 100 characters of the offending text. -/
def validateTextContent (text : String) : Except SecErr Unit :=
  if textDenyListHit text then .error (.maliciousText (text.take 100)) else .ok ()

/-- SecurityValidator: the blocked variable-name set of
`isDangerousVariableName`. -/
def dangerousNames : List String :=
  ["__proto__", "constructor", "prototype", "__builtins__", "__globals__",
   "__locals__", "__import__", "exec", "eval", "compile", "open", "input",
   "globals", "locals", "vars", "dir", "getattr", "setattr", "hasattr",
   "delattr", "function", "this", "window", "document", "global", "process"]

/-- SecurityValidator.isDangerousVariableName: in the blocked set after
lower-casing, or starting with a double underscore. -/
def isDangerousVariableName (name : String) : Bool :=
  dangerousNames.contains (lowerStr name) || startsLit "__".data name.data

end Security

/-- SecurityConfig (types.ts). -/
structure SecurityConfig where
  allowHttp : Bool
  blockLocalhost : Bool
  blockPrivateNetworks : Bool
  domainAllowlist : Option (List String) := none
  maxTemplateSize : Nat
  maxContentElements : Nat
  maxNestingDepth : Nat
  maxExpressionLength : Nat
  requestTimeout : Nat
  deriving Repr, DecidableEq

/-- DEFAULT_SECURITY_CONFIG (security.ts). -/
def DEFAULT_SECURITY_CONFIG : SecurityConfig where
  allowHttp := false
  blockLocalhost := true
  blockPrivateNetworks := true
  maxTemplateSize := 1024 * 1024
  maxContentElements := 1000
  maxNestingDepth := 10
  maxExpressionLength := 500
  requestTimeout := 10000

/-- DEVELOPMENT_SECURITY_CONFIG (security.ts). -/
def DEVELOPMENT_SECURITY_CONFIG : SecurityConfig where
  allowHttp := true
  blockLocalhost := false
  blockPrivateNetworks := false
  maxTemplateSize := 5 * 1024 * 1024
  maxContentElements := 2000
  maxNestingDepth := 15
  maxExpressionLength := 1000
  requestTimeout := 30000

namespace Security

/-- The `variables.__proto__ && variables.__proto__ !== Object.prototype`
guard.  An own `__proto__` data key (as JSON parsing produces) shadows
the prototype accessor, so the read yields the own value; when the key
is absent the read yields `Object.prototype` itself, which the guard
excludes.  No template-derived value can be `Object.prototype`. -/
def protoGuardHit (vars0 : Props) : Bool :=
  match lookupOwn vars0 "__proto__" with
  | some v => truthy v
  | none => false

mutual

/-- SecurityValidator.validateVariables (security.ts:367-424): depth
check, prototype-pollution guard, `hasOwnProperty` check of the three
dangerous keys, `getOwnPropertyNames` scan against the dangerous-name
set, then recursive validation of the enumerable entries. -/
def validateVariables (cfg : SecurityConfig) (vars0 : Props) (path : String)
    (depth : Nat) : Except SecErr Unit :=
  if depth > cfg.maxNestingDepth then .error (.variableNestingTooDeep path)
  else if protoGuardHit vars0 then .error .prototypePollution
  else if (lookupOwn vars0 "__proto__").isSome then .error (.dangerousProperty "__proto__")
  else if (lookupOwn vars0 "constructor").isSome then .error (.dangerousProperty "constructor")
  else if (lookupOwn vars0 "prototype").isSome then .error (.dangerousProperty "prototype")
  else
    match (ownNames vars0).find? isDangerousVariableName with
    | some k => .error (.dangerousVariableName k)
    | none => validateEntries cfg vars0 path depth
termination_by 3 * propsSize vars0 + 2
decreasing_by
  all_goals simp [propsSize, elemsSize, jsSize]

/-- The `Object.entries(variables)` loop of validateVariables: only
enumerable own properties; strings go through the text deny-list,
plain objects recurse, arrays are size-capped and validated per
element. -/
def validateEntries (cfg : SecurityConfig) (entries : Props) (path : String)
    (depth : Nat) : Except SecErr Unit :=
  match entries with
  | [] => .ok ()
  | (key, enum, value) :: rest =>
    if !enum then validateEntries cfg rest path depth
    else
      let currentPath := if path = "" then key else path ++ "." ++ key
      match value with
      | .str s =>
        match validateTextContent s with
        | .error e => .error e
        | .ok _ => validateEntries cfg rest path depth
      | .obj props =>
        match validateVariables cfg props currentPath (depth + 1) with
        | .error e => .error e
        | .ok _ => validateEntries cfg rest path depth
      | .arr elems =>
        if elems.length > 1000 then .error (.arrayTooLarge currentPath elems.length)
        else
          match validateArrayElems cfg elems currentPath depth 0 with
          | .error e => .error e
          | .ok _ => validateEntries cfg rest path depth
      | _ => validateEntries cfg rest path depth
termination_by 3 * propsSize entries
decreasing_by
  all_goals simp [propsSize, elemsSize, jsSize] <;> omega

/-- The inner array loop of validateVariables: strings go through the
text deny-list; object (or array) elements are re-validated wrapped in
a fresh single-key object `{ [i]: value[i] }`, exactly as the source
builds it. -/
def validateArrayElems (cfg : SecurityConfig) (elems : List JSValue)
    (currentPath : String) (depth : Nat) (i : Nat) : Except SecErr Unit :=
  match elems with
  | [] => .ok ()
  | v :: rest =>
    match v with
    | .str s =>
      match validateTextContent s with
      | .error e => .error e
      | .ok _ => validateArrayElems cfg rest currentPath depth (i + 1)
    | .obj props =>
      match validateVariables cfg [(toString i, true, JSValue.obj props)]
          (currentPath ++ "[" ++ toString i ++ "]") (depth + 1) with
      | .error e => .error e
      | .ok _ => validateArrayElems cfg rest currentPath depth (i + 1)
    | .arr es =>
      match validateVariables cfg [(toString i, true, JSValue.arr es)]
          (currentPath ++ "[" ++ toString i ++ "]") (depth + 1) with
      | .error e => .error e
      | .ok _ => validateArrayElems cfg rest currentPath depth (i + 1)
    | _ => validateArrayElems cfg rest currentPath depth (i + 1)
termination_by 3 * elemsSize elems + 5
decreasing_by
  all_goals simp [propsSize, elemsSize, jsSize] <;> omega

end

/-- Does `s` end with the literal `lit`? -/
def endsLit (lit s : List Char) : Bool :=
  startsLit lit.reverse s.reverse

/-- Parsed URL components as exposed by the WHATWG `URL` class: protocol
with trailing colon, hostname, pathname. -/
structure URLRec where
  protocol : String
  hostname : String
  pathname : String
  deriving Repr, DecidableEq

/-- Split `scheme://rest` at the first colon, requiring `//` after it. -/
def splitScheme : List Char → Option (List Char × List Char)
  | [] => none
  | c :: rest =>
    if c = ':' then
      match rest with
      | '/' :: '/' :: r => some ([], r)
      | _ => none
    else
      match splitScheme rest with
      | some (sch, r) => some (c :: sch, r)
      | none => none

/-- Model of `new URL(url)` for absolute hierarchical URLs of the shape
`scheme://host[:port]/path` (the only shape the verified properties
use): scheme and host are lower-cased, an empty path becomes `/`, and
query/fragment parts are cut off.  Any other shape is a parse failure. -/
def parseSimpleUrl (url : String) : Option URLRec :=
  match splitScheme url.data with
  | none => none
  | some (sch, rest) =>
    if sch = [] then none
    else
      let host := rest.takeWhile (fun c => c ≠ '/' && c ≠ ':' && c ≠ '?' && c ≠ '#')
      let after := rest.drop host.length
      let afterPort :=
        match after with
        | ':' :: r => r.dropWhile (fun c => c ≠ '/' && c ≠ '?' && c ≠ '#')
        | _ => after
      let path :=
        match afterPort with
        | '/' :: _ => afterPort.takeWhile (fun c => c ≠ '?' && c ≠ '#')
        | _ => ['/']
      some ⟨String.mk (sch.map asciiLower) ++ ":", String.mk (host.map asciiLower),
            String.mk path⟩

/-- SecurityValidator.isPrivateNetwork, the 172.16/12 range regex
`^172\.(1[6-9]|2[0-9]|3[0-1])\.`. -/
def is172Private : List Char → Bool
  | '1' :: '7' :: '2' :: '.' :: a :: b :: '.' :: _ =>
    (a = '1' && '6' ≤ b && b ≤ '9') ||
    (a = '2' && '0' ≤ b && b ≤ '9') ||
    (a = '3' && (b = '0' || b = '1'))
  | _ => false

/-- SecurityValidator.isPrivateNetwork: the 10/8, 172.16/12, 192.168/16
and 169.254/16 (link-local) anchored prefix regexes. -/
def isPrivateNetwork (hostname : String) : Bool :=
  startsLit "10.".data hostname.data ||
  is172Private hostname.data ||
  startsLit "192.168.".data hostname.data ||
  startsLit "169.254.".data hostname.data

/-- SecurityValidator.validateHostname: localhost variants (when
localhost blocking is on), then private ranges (when private-network
blocking is on). -/
def validateHostname (cfg : SecurityConfig) (hostname : String) : Except SecErr Unit :=
  if cfg.blockLocalhost &&
      ["localhost", "127.0.0.1", "0.0.0.0", "::1"].contains (lowerStr hostname) then
    .error (.localhostBlocked hostname)
  else if cfg.blockPrivateNetworks && isPrivateNetwork hostname then
    .error (.privateNetworkBlocked hostname)
  else .ok ()

/-- SecurityValidator.isDomainAllowed: exact or subdomain match against
the allow-list. -/
def isDomainAllowed (cfg : SecurityConfig) (hostname : String) : Bool :=
  match cfg.domainAllowlist with
  | none => true
  | some allowed =>
    allowed.any (fun d => hostname = d || endsLit ("." ++ d).data hostname.data)

/-- The always-denied protocol list of validateSchemaUrl. -/
def dangerousProtocols : List String :=
  ["file:", "ftp:", "gopher:", "ldap:", "dict:", "data:"]

/-- SecurityValidator.validateSchemaUrl (security.ts:465-508): URL
parse, protocol allow/deny checks, hostname checks, domain allow-list,
path-traversal check.  A parse failure (the `URL` constructor throwing)
is wrapped into the `Invalid URL` security error by the final `catch`. -/
def validateSchemaUrl (cfg : SecurityConfig) (url : String) : Except SecErr Unit :=
  match parseSimpleUrl url with
  | none => .error (.invalidUrl url)
  | some u =>
    if !startsLit "https:".data u.protocol.data &&
        (!cfg.allowHttp || u.protocol ≠ "http:") then
      .error (.protocolNotAllowed u.protocol)
    else if dangerousProtocols.contains u.protocol then
      .error (.dangerousProtocol u.protocol)
    else
      match (if u.hostname ≠ "" then validateHostname cfg u.hostname else .ok ()) with
      | .error e => .error e
      | .ok _ =>
        if (match cfg.domainAllowlist with
            | some l => decide (l.length > 0) && !isDomainAllowed cfg u.hostname
            | none => false) then
          .error (.domainNotAllowed u.hostname)
        else if anyPosition (startsLit "..".data) u.pathname.data then
          .error .pathTraversal
        else .ok ()

/-- Consuming a literal off its own append succeeds. -/
theorem dropLit_self_append (lit r : List Char) : dropLit lit (lit ++ r) = some r := by
  induction lit with
  | nil => rfl
  | cons c cs ih => simp [dropLit, ih]

/-- `startsLit` holds on a self-append. -/
theorem startsLit_self_append (lit r : List Char) : startsLit lit (lit ++ r) = true := by
  simp [startsLit, dropLit_self_append]

/-- Splitting a literal consumption at an append boundary. -/
theorem dropLit_append {a b s r : List Char} (h : dropLit (a ++ b) s = some r) :
    ∃ m, dropLit a s = some m ∧ dropLit b m = some r := by
  induction a generalizing s with
  | nil => exact ⟨s, rfl, h⟩
  | cons c cs ih =>
    cases s with
    | nil => simp [dropLit] at h
    | cons x xs =>
      by_cases hxc : x = c
      · simp only [List.cons_append, dropLit, hxc, if_true] at h ⊢
        exact ih h
      · simp [List.cons_append, dropLit, hxc] at h

/-- A pattern hit somewhere implies a hit for any pointwise weaker
pattern. -/
theorem anyPosition_mono {p q : List Char → Bool}
    (hpq : ∀ t, p t = true → q t = true) :
    ∀ {s}, anyPosition p s = true → anyPosition q s = true := by
  intro s
  induction s with
  | nil =>
    intro h
    simp [anyPosition] at h ⊢
    exact hpq [] h
  | cons c rest ih =>
    intro h
    simp [anyPosition] at h ⊢
    rcases h with h | h
    · exact Or.inl (hpq _ h)
    · exact Or.inr (ih h)

/-- A hit at the head position is a hit. -/
theorem anyPosition_of_here {p : List Char → Bool} {s : List Char} (h : p s = true) :
    anyPosition p s = true := by
  cases s with
  | nil => simpa [anyPosition] using h
  | cons c rest => simp [anyPosition, h]

/-- A hit in a suffix survives prepending. -/
theorem anyPosition_append_left (p : List Char → Bool) (a : List Char) {s : List Char}
    (h : anyPosition p s = true) : anyPosition p (a ++ s) = true := by
  induction a with
  | nil => exact h
  | cons c cs ih =>
    simp only [List.cons_append, anyPosition, Bool.or_eq_true]
    exact Or.inr ih

/-- An adjacent `javascript:` occurrence is an instance of the
`javascript\s*:` pattern (empty whitespace run). -/
theorem jsColonAt_of_adjacent {t : List Char}
    (h : startsLit "javascript:".data t = true) :
    litWsLitAt "javascript".data ":".data t = true := by
  unfold startsLit at h
  cases hd : dropLit "javascript:".data t with
  | none => simp [hd] at h
  | some r =>
    have hsplit : dropLit ("javascript".data ++ ":".data) t = some r := hd
    obtain ⟨m, hm1, hm2⟩ := dropLit_append hsplit
    have hm : m = ':' :: r := by
      cases m with
      | nil => simp [dropLit] at hm2
      | cons x xs =>
        simp [dropLit] at hm2
        simp [hm2.1, hm2.2]
    subst hm
    simp [litWsLitAt, hm1, dropWs, isJsWs, startsLit, dropLit]

/-- Consuming `[^>]*>` across a gt-free block. -/
theorem consumeToGt_append {b : List Char} (hb : ∀ ch ∈ b, ch ≠ '>') (r : List Char) :
    consumeToGt (b ++ '>' :: r) = some r := by
  induction b with
  | nil => simp [consumeToGt]
  | cons x xs ih =>
    have hx : x ≠ '>' := hb x (by simp)
    simp only [List.cons_append, consumeToGt, hx, if_false]
    exact ih (fun ch hm => hb ch (by simp [hm]))

/-- A close tag at the current position closes the scan. -/
theorem scriptCloseAhead_of_startsLit {s : List Char}
    (h : startsLit "</script>".data s = true) : scriptCloseAhead s = true := by
  cases s with
  | nil => simp [startsLit, dropLit] at h
  | cons x rest =>
    rw [scriptCloseAhead]
    simp [h]

/-- Scanning across a line-terminator-free block finds the close tag. -/
theorem scriptCloseAhead_append {c : List Char}
    (hc : ∀ ch ∈ c, isLineTerm ch = false) (d : List Char) :
    scriptCloseAhead (c ++ ("</script>".data ++ d)) = true := by
  induction c with
  | nil => exact scriptCloseAhead_of_startsLit (startsLit_self_append _ _)
  | cons x xs ih =>
    have hx : isLineTerm x = false := hc x (by simp)
    rw [List.cons_append, scriptCloseAhead]
    simp [hx]
    right
    exact ih (fun ch hm => hc ch (by simp [hm]))

/-- A complete script element matches the script-tag pattern at its
start. -/
theorem scriptTagAt_of_parts (b c d : List Char)
    (hb : ∀ ch ∈ b, ch ≠ '>') (hc : ∀ ch ∈ c, isLineTerm ch = false) :
    scriptTagAt ("<script".data ++ (b ++ ('>' :: (c ++ ("</script>".data ++ d))))) = true := by
  unfold scriptTagAt
  simp only [dropLit_self_append, consumeToGt_append hb]
  exact scriptCloseAhead_append hc d

end Security

namespace Loader

/-- Instruction-type schema payload: the `instructionTypes` mapping of a
fetched schema document (name, then `template` plus optional fields). -/
structure RawType where
  template : String
  description : Option String := none
  configSchema : Option JSValue := none

/-- Fetched schema document: its `instructionTypes` entries in order. -/
structure Schema where
  instructionTypes : List (String × RawType)

/-- SchemaCache entry (types.ts): payload plus fetch and expiry clock
readings. -/
structure CacheEntry where
  schema : Schema
  cachedAt : Int
  expiresAt : Int

/-- SchemaLoader state: the URL-keyed cache and the configured TTL. -/
structure LoaderState where
  cache : List (String × CacheEntry)
  cacheTTL : Int

/-- Remove a cache entry (`delete this.cache[url]`). -/
def deleteEntry (cache : List (String × CacheEntry)) (url : String) :
    List (String × CacheEntry) :=
  cache.filter (fun p => p.1 ≠ url)

/-- SchemaLoader.getFromCache: miss on absent entry; an entry past its
expiry is deleted and reported as a miss; otherwise the cached schema is
returned (the state is unchanged). -/
def getFromCache (st : LoaderState) (url : String) (now : Int) :
    Option Schema × LoaderState :=
  match st.cache.lookup url with
  | none => (none, st)
  | some entry =>
    if now > entry.expiresAt then
      (none, { st with cache := deleteEntry st.cache url })
    else (some entry.schema, st)

/-- SchemaLoader.saveToCache: store the schema with
`expiresAt = now + cacheTTL`.  Assignment to `this.cache[url]` is
modelled as replace-by-key on the association list (entry position is
observable only through `getCacheStats`, which no verified property
touches). -/
def saveToCache (st : LoaderState) (url : String) (schema : Schema) (now : Int) :
    LoaderState :=
  { st with cache := (url, ⟨schema, now, now + st.cacheTTL⟩) ::
      deleteEntry st.cache url }

/-- SchemaLoader.loadSchema (schema-loader.ts:30-54) with the network
modelled explicitly: `fetched` is the outcome `loadFromUrl` would
produce for this URL, and the returned `Nat` counts the fetches
performed by this call (0 = served from cache, 1 = one fresh fetch).
The compiler always calls it through `loadInstructionTypes`, which
passes the raw `extends` URL; relative resolution (`resolveUrl`) is the
identity for the absolute URLs used here and is not modelled. -/
def loadSchema (cfg : SecurityConfig) (st : LoaderState) (url : String) (now : Int)
    (fetched : Except String Schema) :
    Except SecErr (Schema × LoaderState × Nat) :=
  match Security.validateSchemaUrl cfg url with
  | .error e => .error e
  | .ok _ =>
    match getFromCache st url now with
    | (some schema, st1) => .ok (schema, st1, 0)
    | (none, st1) =>
      match fetched with
      | .error _ => .error (.schemaLoadFailed url)
      | .ok schema => .ok (schema, saveToCache st1 url schema now, 1)

/-- Deleting a key twice equals deleting it once. -/
theorem deleteEntry_idem (c : List (String × CacheEntry)) (u : String) :
    deleteEntry (deleteEntry c u) u = deleteEntry c u := by
  simp [deleteEntry, List.filter_filter]

end Loader

/-- ContentElement (types.ts): the tagged union of template content.
The optional `id` of a placeholder is carried for error reporting. -/
inductive ContentElement where
  | text (text : String)
  | placeholder (instructionType : String) (config : List (String × JSValue)) (id : Option String)
  | conditional (condition : String) (content : List ContentElement) (els : Option (List ContentElement))

mutual

/-- JavaScript `String(value)` on the modelled value space.  Arrays
join their elements with commas (`null`/`undefined` elements becoming
empty); plain objects print as `[object Object]`; an inherited built-in
function prints as `function name() \x7b [native code] \x7d`, and the
`Object.prototype` object (the `__proto__` read) as `[object Object]`. -/
def jsToString : JSValue → String
  | .undefined => "undefined"
  | .null => "null"
  | .nan => "NaN"
  | .bool b => if b then "true" else "false"
  | .num n => toString n
  | .str s => s
  | .arr elems => arrayJoin elems
  | .obj _ => "[object Object]"
  | .native _ n =>
    if n = "__proto__" then "[object Object]"
    else "function " ++ n ++ "() \x7b [native code] \x7d"
termination_by v => 3 * jsSize v + 1
decreasing_by
  all_goals simp [jsSize, elemsSize]
  omega

/-- Array part of `jsToString` (`Array.prototype.toString`). -/
def arrayJoin : List JSValue → String
  | [] => ""
  | [v] => arrayElemStr v
  | v :: rest => arrayElemStr v ++ "," ++ arrayJoin rest
termination_by l => 3 * elemsSize l
decreasing_by
  all_goals simp [jsSize, elemsSize] <;> try omega

/-- Element stringification inside an array join: `null` and
`undefined` become the empty string. -/
def arrayElemStr : JSValue → String
  | .null => ""
  | .undefined => ""
  | v => jsToString v
termination_by v => 3 * jsSize v + 2
decreasing_by
  all_goals simp [jsSize, elemsSize]

end

/-- Length bookkeeping for `dropLit`: consuming a literal removes
exactly its length. -/
theorem dropLit_length {lit s r : List Char} (h : Security.dropLit lit s = some r) :
    r.length + lit.length = s.length := by
  induction lit generalizing s with
  | nil => simp [Security.dropLit] at h; simp [h]
  | cons p ps ih =>
    match s with
    | [] => simp [Security.dropLit] at h
    | c :: cs =>
      simp [Security.dropLit] at h
      obtain ⟨hc, hr⟩ := h
      have := ih hr
      simp [List.length]
      omega

/-- Global literal find/replace on character lists: the model of
`str.replace(new RegExp(escapedLiteral, "g"), repl)`. -/
def replaceAllChars (p : Char) (ps repl : List Char) : List Char → List Char
  | [] => []
  | c :: rest =>
    match h : Security.dropLit (p :: ps) (c :: rest) with
    | some r => repl ++ replaceAllChars p ps repl r
    | none => c :: replaceAllChars p ps repl rest
termination_by s => s.length
decreasing_by
  · have h2 := dropLit_length h
    simp only [List.length_cons] at h2 ⊢
    omega
  · simp

/-- Global literal find/replace on strings; an empty pattern leaves the
string unchanged (no pattern used by the compiler is empty). -/
def replaceAll (s pat repl : String) : String :=
  match pat.data with
  | [] => s
  | p :: ps => String.mk (replaceAllChars p ps repl.data s.data)

/-- First-occurrence literal find/replace on character lists: the model
of `str.replace(literalString, repl)` (a string pattern replaces only
the first occurrence). -/
def replaceFirstChars (pat repl : List Char) : List Char → List Char
  | [] => []
  | s@(c :: rest) =>
    match Security.dropLit pat s with
    | some r => repl ++ r
    | none => c :: replaceFirstChars pat repl rest

/-- First-occurrence literal find/replace on strings. -/
def replaceFirst (s pat repl : String) : String :=
  String.mk (replaceFirstChars pat.data repl.data s.data)

namespace Compiler

/-- OverrideType (types.ts). -/
inductive OverrideType where
  | custom
  | schemaExtension
  | standard
  deriving Repr, DecidableEq

/-- TypeOverride (types.ts): provenance record of one instruction-type
definition replacing another of the same name. -/
structure TypeOverride where
  typeName : String
  overrideSource : String
  overriddenSource : String
  overrideType : OverrideType
  deriving Repr, DecidableEq

/-- InstructionTypeDefinition (types.ts). -/
structure InstructionTypeDefinition where
  template : String
  description : Option String := none
  configSchema : Option JSValue := none
  source : Option String := none

/-- Assignment `map[typeName] = def` on a JavaScript object modelled as
an ordered association list: an existing key keeps its position, a new
key is appended. -/
def setType (m : List (String × InstructionTypeDefinition)) (name : String)
    (d : InstructionTypeDefinition) : List (String × InstructionTypeDefinition) :=
  match m with
  | [] => [(name, d)]
  | (k, v) :: rest => if k = name then (k, d) :: rest else (k, v) :: setType rest name d

/-- One iteration of the schema-types loop of
ITSCompiler.loadInstructionTypes (compiler.ts:270-295): record a
schema-extension override when the name is already mapped, then store
the definition with the schema URL as source. -/
def applySchemaEntry (schemaUrl : String)
    (acc : List (String × InstructionTypeDefinition) × List TypeOverride)
    (entry : String × Loader.RawType) :
    List (String × InstructionTypeDefinition) × List TypeOverride :=
  let (m, ovs) := acc
  let (typeName, typeDef) := entry
  let ovs1 :=
    match m.lookup typeName with
    | some existing =>
      ovs ++ [⟨typeName, schemaUrl, existing.source.getD "unknown", .schemaExtension⟩]
    | none => ovs
  (setType m typeName ⟨typeDef.template, typeDef.description, typeDef.configSchema,
    some schemaUrl⟩, ovs1)

/-- One iteration of the customInstructionTypes loop of
ITSCompiler.loadInstructionTypes (compiler.ts:299-324): record a custom
override when the name is already mapped, then store the definition
with source `custom`. -/
def applyCustomEntry
    (acc : List (String × InstructionTypeDefinition) × List TypeOverride)
    (entry : String × Loader.RawType) :
    List (String × InstructionTypeDefinition) × List TypeOverride :=
  let (m, ovs) := acc
  let (typeName, typeDef) := entry
  let ovs1 :=
    match m.lookup typeName with
    | some existing =>
      ovs ++ [⟨typeName, "customInstructionTypes", existing.source.getD "unknown", .custom⟩]
    | none => ovs
  (setType m typeName ⟨typeDef.template, typeDef.description, typeDef.configSchema,
    some "custom"⟩, ovs1)

/-- ITSCompiler.loadInstructionTypes (compiler.ts:256-327).  `schemaFor`
gives the schema document that `schemaLoader.loadSchema` returns for
each `extends` URL (network and cache behaviour are verified separately
on `Loader.loadSchema`); the `extends` URLs are layered in order and
the inline custom types are applied last. -/
def loadInstructionTypes (schemaFor : String → Loader.Schema) (extends_ : List String)
    (customTypes : List (String × Loader.RawType)) :
    List (String × InstructionTypeDefinition) × List TypeOverride :=
  let afterSchemas := extends_.foldl
    (fun acc url => ((schemaFor url).instructionTypes).foldl (applySchemaEntry url) acc)
    ([], [])
  customTypes.foldl applyCustomEntry afterSchemas

/-- Compilation errors (ITSCompilationError), one constructor per throw
site reached by the modelled pipeline. -/
inductive CompErr where
  | unknownInstructionType (id : Option String) (instructionType : String)
      (availableTypes : List String)
  deriving Repr, DecidableEq

/-- ITSCompiler.formatInstruction (compiler.ts:410-431): substitute
`{description}` globally, then every other config key globally (in
entry order), coercing values with `String(...)`. -/
def formatInstruction (it : InstructionTypeDefinition)
    (config : List (String × JSValue)) : String :=
  let description :=
    match config.lookup "description" with
    | some v => if truthy v then jsToString v else ""
    | none => ""
  let t1 := replaceAll it.template "{description}" description
  config.foldl
    (fun acc kv =>
      if kv.1 = "description" then acc
      else replaceAll acc ("\x7b" ++ kv.1 ++ "\x7d") (jsToString kv.2))
    t1

/-- ITSCompiler.generateInstruction (compiler.ts:378-405): unknown
instruction types are a compilation error carrying the available type
names; otherwise the type template is formatted with the config. -/
def generateInstruction (instructionType : String) (config : List (String × JSValue))
    (id : Option String)
    (instructionTypes : List (String × InstructionTypeDefinition)) :
    Except CompErr String :=
  match instructionTypes.lookup instructionType with
  | none => .error (.unknownInstructionType id instructionType
      (instructionTypes.map (fun p => p.1)))
  | some it => .ok (formatInstruction it config)

/-- The content loop of ITSCompiler.generatePrompt (compiler.ts:344-361):
text passes through; a placeholder becomes its generated instruction,
emitted unchanged when already bracketed by `<<`/`>>`, otherwise pushed
through the configured instruction wrapper; other element kinds are
skipped. -/
def processedPieces (instructionTypes : List (String × InstructionTypeDefinition))
    (instructionWrapper : String) :
    List ContentElement → Except CompErr (List String)
  | [] => .ok []
  | .text t :: rest =>
    match processedPieces instructionTypes instructionWrapper rest with
    | .error e => .error e
    | .ok pieces => .ok (t :: pieces)
  | .placeholder ty config id :: rest =>
    match generateInstruction ty config id instructionTypes with
    | .error e => .error e
    | .ok instruction =>
      let piece :=
        if Security.startsLit "<<".data instruction.data &&
            Security.endsLit ">>".data instruction.data then
          instruction
        else replaceFirst instructionWrapper "{instruction}" instruction
      match processedPieces instructionTypes instructionWrapper rest with
      | .error e => .error e
      | .ok pieces => .ok (piece :: pieces)
  | .conditional _ _ _ :: rest => processedPieces instructionTypes instructionWrapper rest

/-- CompilerConfig (types.ts). -/
structure CompilerConfig where
  systemPrompt : Option String := none
  userContentWrapper : Option String := none
  instructionWrapper : Option String := none
  processingInstructions : Option (List String) := none

/-- JavaScript `string || default` (the empty string is falsy). -/
def strOr (o : Option String) (d : String) : String :=
  match o with
  | some s => if s = "" then d else s
  | none => d

/-- ITSCompiler.getDefaultSystemPrompt. -/
def getDefaultSystemPrompt : String :=
  "You are an AI assistant that fills in content templates. " ++
  "Follow the instructions exactly and replace each placeholder with " ++
  "appropriate content based on the user prompts provided. " ++
  "Respond only with the transformed content."

/-- ITSCompiler.getDefaultProcessingInstructions. -/
def getDefaultProcessingInstructions : List String :=
  ["Replace each placeholder marked with << >> with generated content",
   "The user\x27s content request is wrapped in ([\x7b< >\x7d]) to distinguish it from instructions",
   "Follow the format requirements specified after each user prompt",
   "Maintain the existing structure and formatting of the template",
   "Only replace the placeholders - do not modify any other text",
   "Generate content that matches the tone and style requested",
   "Respond only with the transformed content - do not include any explanations or additional text"]

/-- ITSCompiler.generatePrompt (compiler.ts:332-373): resolve the
compiler configuration (falsy fields fall back to defaults; the default
instruction wrapper is `<<\x7binstruction\x7d>>`), process the content
elements, and assemble the fixed section layout joined by newlines. -/
def generatePrompt (content : List ContentElement)
    (instructionTypes : List (String × InstructionTypeDefinition))
    (compilerConfig : Option CompilerConfig) : Except CompErr String :=
  let cc := compilerConfig.getD {}
  let systemPrompt := strOr cc.systemPrompt getDefaultSystemPrompt
  let instructionWrapper := strOr cc.instructionWrapper "<<{instruction}>>"
  let processingInstructions :=
    cc.processingInstructions.getD getDefaultProcessingInstructions
  match processedPieces instructionTypes instructionWrapper content with
  | .error e => .error e
  | .ok pieces =>
    let numbered := ((List.range processingInstructions.length).zip
      processingInstructions).map (fun p => toString (p.1 + 1) ++ ". " ++ p.2)
    let promptParts := ["INTRODUCTION", "", systemPrompt, "", "INSTRUCTIONS", ""] ++
      numbered ++ ["", "TEMPLATE", "", String.join pieces]
    .ok (String.intercalate "\n" promptParts)

/-- Property assignment during object spread: later keys overwrite the
value in place, new keys append; the copied property is enumerable. -/
def setProp (props : Props) (key : String) (v : JSValue) : Props :=
  match props with
  | [] => [(key, true, v)]
  | (k, e, v0) :: rest =>
    if k = key then (k, true, v) :: rest else (k, e, v0) :: setProp rest key v

/-- Object spread `{ ...acc, ...src }` restricted to one source: copy
the own enumerable properties of `src` into `acc` in order. -/
def spreadInto (acc : Props) : Props → Props
  | [] => acc
  | (k, e, v) :: rest =>
    if e then spreadInto (setProp acc k v) rest else spreadInto acc rest

/-- The merge `{ ...templateVariables, ...(variables || {}) }`
(compiler.ts:96-97). -/
def mergeVars (templateVars callerVars : Props) : Props :=
  spreadInto (spreadInto [] templateVars) callerVars

/-- The variables validation-and-merge phase of ITSCompiler.compile
(compiler.ts:80-97).  SecurityValidator.validateTemplate runs variables
validation only when `template.variables` is present (security.ts:
242-244, any object being truthy), and `validate()` re-runs the same
check; the caller-supplied `variables` argument is merged afterwards
without passing through any SecurityValidator check (no other compile
stage inspects caller-variable keys).  The omitted branches of
validateTemplate inspect only the serialized size, the content elements
and the `extends` URLs of the template, never the caller variables. -/
def compileVariablesPhase (cfg : SecurityConfig) (templateVariables : Option Props)
    (callerVariables : Option Props) : Except SecErr Props :=
  match (match templateVariables with
         | some tv => Security.validateVariables cfg tv "" 0
         | none => .ok ()) with
  | .error e => .error e
  | .ok _ => .ok (mergeVars (templateVariables.getD []) (callerVariables.getD []))

end Compiler

/-- Errors thrown as `ITSVariableError` by the VariableProcessor, one
constructor per throw site, carrying the data the error object carries
(`variablePath` is the original reference; `availableVariables` the
sibling keys when available). -/
inductive VarErr where
  | invalidReferenceSyntax (varRef : String)
  | propertyAccessOnNonObject (name : String) (varRef : String)
  | propertyNotFound (name : String) (varRef : String) (availableKeys : List String)
  | indexOnNonArray (varRef : String)
  | indexOutOfBounds (index : Int) (length : Nat) (varRef : String)
  | malformedIndex (varRef : String)
  | invalidIndex (indexStr : String)
  deriving Repr, DecidableEq

namespace VarProc

/-- One step of a parsed variable reference: a dotted property or a
bracketed index. -/
inductive RefPart where
  | property (name : String)
  | index (i : Int)
  deriving Repr, DecidableEq

/-- Start character of the reference-pattern identifier class
`[a-zA-Z_]`. -/
def isIdentStart (c : Char) : Bool :=
  ('a' ≤ c && c ≤ 'z') || ('A' ≤ c && c ≤ 'Z') || c = '_'

/-- Continuation character `[a-zA-Z0-9_]`. -/
def isIdentChar (c : Char) : Bool :=
  isIdentStart c || ('0' ≤ c && c ≤ '9')

/-- Bracket-index character class `[0-9-]`. -/
def isIdxChar (c : Char) : Bool :=
  ('0' ≤ c && c ≤ '9') || c = '-'

/-- States of the deterministic automaton for the anchored reference
regex `[a-zA-Z_][a-zA-Z0-9_]*(\.[a-zA-Z_][a-zA-Z0-9_]*|\[[0-9-]+\])*`. -/
inductive RefState where
  | start
  | ident
  | needIdent
  | needIdx
  | idx
  | bracketDone
  deriving Repr, DecidableEq

/-- Transition function of the reference-pattern automaton. -/
def refStep (st : RefState) (c : Char) : Option RefState :=
  match st with
  | .start => if isIdentStart c then some .ident else none
  | .ident =>
    if isIdentChar c then some .ident
    else if c = '.' then some .needIdent
    else if c = '[' then some .needIdx
    else none
  | .needIdent => if isIdentStart c then some .ident else none
  | .needIdx => if isIdxChar c then some .idx else none
  | .idx =>
    if isIdxChar c then some .idx
    else if c = ']' then some .bracketDone
    else none
  | .bracketDone =>
    if c = '.' then some .needIdent
    else if c = '[' then some .needIdx
    else none

/-- Accepting states: after a complete identifier or a closed bracket. -/
def refAccept : RefState → Bool
  | .ident => true
  | .bracketDone => true
  | _ => false

/-- Run of the reference-pattern automaton. -/
def refRun : RefState → List Char → Bool
  | st, [] => refAccept st
  | st, c :: rest =>
    match refStep st c with
    | some st2 => refRun st2 rest
    | none => false

/-- VariableProcessor.isValidVariableReference: reject `..`, a leading
underscore or a double underscore anywhere, then match the anchored
reference pattern.  (The source also applies the identity rewrite
`replace(/\.length/g, ".length")` before matching.) -/
def isValidVariableReference (varRef : String) : Bool :=
  if Security.anyPosition (Security.startsLit "..".data) varRef.data ||
      Security.startsLit "_".data varRef.data ||
      Security.anyPosition (Security.startsLit "__".data) varRef.data then
    false
  else refRun .start varRef.data

/-- Digit-run accumulator of `parseInt` (base 10). -/
def digitsLoop (acc : Nat) : List Char → Nat
  | c :: rest => if c.isDigit then digitsLoop (acc * 10 + (c.toNat - 48)) rest else acc
  | [] => acc

/-- Leading digit run of `parseInt`; `none` when the first character is
not a digit. -/
def digitsVal : List Char → Option Nat
  | c :: rest => if c.isDigit then some (digitsLoop (c.toNat - 48) rest) else none
  | [] => none

/-- JavaScript `parseInt(s, 10)`: skip whitespace, optional sign, then
the longest digit prefix; `none` models `NaN`. -/
def jsParseInt (s : List Char) : Option Int :=
  let s1 := s.dropWhile Security.isJsWs
  match s1 with
  | '-' :: rest => (digitsVal rest).map (fun n => -(n : Int))
  | '+' :: rest => (digitsVal rest).map (fun n => (n : Int))
  | _ => (digitsVal s1).map (fun n => (n : Int))

/-- Collect the characters of a bracketed index up to the closing `]`;
`none` when the reference ends before a `]` is found (the malformed
case). -/
def collectIdx : List Char → String → Option (String × List Char)
  | [], _ => none
  | c :: rest, acc => if c = ']' then some (acc, rest) else collectIdx rest (acc.push c)

/-- Length bookkeeping for `collectIdx`. -/
theorem collectIdx_length {l : List Char} {acc : String} {s : String} {r : List Char}
    (h : collectIdx l acc = some (s, r)) : r.length < l.length := by
  induction l generalizing acc with
  | nil => simp [collectIdx] at h
  | cons c rest ih =>
    by_cases hc : c = ']'
    · subst hc
      simp [collectIdx] at h
      simp [h.2]
    · simp only [collectIdx, hc, if_false] at h
      exact Nat.lt_succ_of_lt (ih h)

/-- The character loop of VariableProcessor.parseVariableReference
(variable-processor.ts:175-224): dots push the accumulated property
name, brackets collect an index parsed with `parseInt`, everything else
accumulates. -/
def parseRefLoop (varRef : String) : List Char → String → Except VarErr (List RefPart)
  | [], current => .ok (if current ≠ "" then [.property current] else [])
  | '.' :: rest, current =>
    match parseRefLoop varRef rest "" with
    | .error e => .error e
    | .ok ps => .ok (if current ≠ "" then .property current :: ps else ps)
  | '[' :: rest, current =>
    let pushed : List RefPart := if current ≠ "" then [.property current] else []
    match h : collectIdx rest "" with
    | none => .error (.malformedIndex varRef)
    | some (indexStr, rest2) =>
      match jsParseInt indexStr.data with
      | none => .error (.invalidIndex indexStr)
      | some idx =>
        match parseRefLoop varRef rest2 "" with
        | .error e => .error e
        | .ok ps => .ok (pushed ++ .index idx :: ps)
  | c :: rest, current => parseRefLoop varRef rest (current.push c)
termination_by l _ => l.length
decreasing_by
  · simp
  · have := collectIdx_length h
    simp
    omega
  · simp

/-- VariableProcessor.parseVariableReference. -/
def parseVariableReference (varRef : String) : Except VarErr (List RefPart) :=
  parseRefLoop varRef varRef.data ""

/-- Is the value of JavaScript `typeof` equal to `"object"` and not
`null` (the traversable composite check of the resolver)?  The
inherited built-in methods have `typeof` `"function"`, so the only
`native` value that passes is the `Object.prototype` object itself. -/
def isComposite : JSValue → Bool
  | .arr _ => true
  | .obj _ => true
  | .native _ n => n = "__proto__"
  | _ => false

/-- The walk of VariableProcessor.resolveVariableReference
(variable-processor.ts:102-155) over parsed parts.  `.length` on an
array or string returns immediately (dropping any remaining parts,
exactly as the `return current.length` does); property steps require a
non-null composite and a key the `in` operator accepts, which consults
the prototype chain after the own keys (on an object a name like
`toString` passes and reads the inherited built-in; the thrown
not-found error lists the object's own keys); index steps require an
array, normalize a negative index by the
length and fail on any index outside the bounds. -/
def resolveParts (varRef : String) : List RefPart → JSValue → Except VarErr JSValue
  | [], cur => .ok cur
  | .property name :: restParts, cur =>
    if name = "length" &&
        (match cur with | .arr _ => true | .str _ => true | _ => false) then
      .ok (.num (match cur with
        | .arr elems => (elems.length : Int)
        | .str s => (s.length : Int)
        | _ => 0))
    else if !isComposite cur then .error (.propertyAccessOnNonObject name varRef)
    else
      match cur with
      | .obj props =>
        match lookupOwn props name with
        | some v => resolveParts varRef restParts v
        | none =>
          match objectProtoRead name with
          | some v => resolveParts varRef restParts v
          | none => .error (.propertyNotFound name varRef (ownNames props))
      | .arr elems =>
        match arrayProtoRead name with
        | some v => resolveParts varRef restParts v
        | none =>
          .error (.propertyNotFound name varRef
            ((List.range elems.length).map toString))
      | .native _ _ =>
        -- only the Object.prototype object reaches here (see isComposite);
        -- its own keys are objectPrototypeNames, and its own __proto__
        -- accessor yields its prototype, null
        if name = "__proto__" then resolveParts varRef restParts .null
        else
          match objectProtoRead name with
          | some v => resolveParts varRef restParts v
          | none => .error (.propertyNotFound name varRef [])
      | _ => .error (.propertyAccessOnNonObject name varRef)
  | .index idx :: restParts, cur =>
    match cur with
    | .arr elems =>
      if idx < 0 then
        let actualIndex := (elems.length : Int) + idx
        if actualIndex < 0 || actualIndex ≥ (elems.length : Int) then
          .error (.indexOutOfBounds idx elems.length varRef)
        else resolveParts varRef restParts (elems.getD actualIndex.toNat .undefined)
      else
        if idx ≥ (elems.length : Int) then
          .error (.indexOutOfBounds idx elems.length varRef)
        else resolveParts varRef restParts (elems.getD idx.toNat .undefined)
    | _ => .error (.indexOnNonArray varRef)

/-- VariableProcessor.resolveVariableReference: syntax validation,
parse, then the walk starting at the variables object. -/
def resolveVariableReference (varRef : String) (vars : Props) : Except VarErr JSValue :=
  if !isValidVariableReference varRef then .error (.invalidReferenceSyntax varRef)
  else
    match parseVariableReference varRef with
    | .error e => .error e
    | .ok parts => resolveParts varRef parts (.obj vars)

/-- VariableProcessor.sanitiseResolvedValue: strings pass through
verbatim, arrays join their stringified elements with a comma and
space, objects render as an opaque property-count placeholder, and
every other value stringifies with truncation at 1000 characters. -/
def sanitiseResolvedValue : JSValue → String
  | .str s => s
  | .arr elems => String.intercalate ", " (elems.map jsToString)
  | .obj props =>
    "[Object with " ++ toString (props.filter (fun p => p.2.1)).length ++ " properties]"
  | .native o n =>
    -- the Object.prototype object takes the typeof-object branch (it has
    -- no enumerable own key); an inherited built-in function falls to
    -- the default String(value) branch
    if n = "__proto__" then "[Object with 0 properties]"
    else
      let strValue := jsToString (JSValue.native o n)
      if strValue.length > 1000 then strValue.take 1000 ++ "... [TRUNCATED]"
      else strValue
  | v =>
    let strValue := jsToString v
    if strValue.length > 1000 then strValue.take 1000 ++ "... [TRUNCATED]"
    else strValue

/-- Trim whitespace from both ends (`String.prototype.trim`, restricted
to its ASCII members). -/
def trimChars (l : List Char) : List Char :=
  ((l.dropWhile Security.isJsWs).reverse.dropWhile Security.isJsWs).reverse

/-- Split at the first `}`: the span the non-greedy `[^}]+` of the
interpolation pattern can cover, and the remainder after the brace. -/
def splitAtClose : List Char → Option (List Char × List Char)
  | [] => none
  | c :: rest =>
    if c = '}' then some ([], rest)
    else (splitAtClose rest).map (fun p => (c :: p.1, p.2))

/-- Length bookkeeping for `splitAtClose`. -/
theorem splitAtClose_length {l inner rest : List Char}
    (h : splitAtClose l = some (inner, rest)) : rest.length < l.length := by
  induction l generalizing inner with
  | nil => simp [splitAtClose] at h
  | cons c cs ih =>
    by_cases hc : c = '}'
    · subst hc
      simp [splitAtClose] at h
      simp [h.2]
    · simp only [splitAtClose, hc, if_false] at h
      rcases Option.map_eq_some'.mp h with ⟨⟨a, b⟩, hab, hEq⟩
      cases hEq
      exact Nat.lt_succ_of_lt (ih hab)

/-- The global-replace scan of VariableProcessor.processString over the
pattern `\$\x7b([^\x7d]+)\x7d`: on `${` followed by a non-empty
brace-free span and `}`, the trimmed reference is resolved (a
resolution failure aborts the whole scan, as the thrown
ITSVariableError does) and the sanitised value is emitted; a failed
match emits the `$` and rescans from the next character, as the regex
engine advances by one position. -/
def interpolate (vars : Props) : List Char → Except VarErr (List Char)
  | [] => .ok []
  | c :: rest =>
    if c = '$' then
      match rest with
      | '{' :: rest2 =>
        match h : splitAtClose rest2 with
        | some (inner, after) =>
          if inner.isEmpty then
            match interpolate vars ('{' :: rest2) with
            | .error e => .error e
            | .ok t => .ok ('$' :: t)
          else
            match resolveVariableReference (String.mk (trimChars inner)) vars with
            | .error e => .error e
            | .ok v =>
              match interpolate vars after with
              | .error e => .error e
              | .ok t => .ok ((sanitiseResolvedValue v).data ++ t)
        | none =>
          match interpolate vars ('{' :: rest2) with
          | .error e => .error e
          | .ok t => .ok ('$' :: t)
      | r =>
        match interpolate vars r with
        | .error e => .error e
        | .ok t => .ok (c :: t)
    else
      match interpolate vars rest with
      | .error e => .error e
      | .ok t => .ok (c :: t)
termination_by l => l.length
decreasing_by
  all_goals simp
  have := splitAtClose_length h
  omega

/-- VariableProcessor.processString (variable-processor.ts:76-88): the
interpolation scan lifted to strings.  The only throw sites reachable
from the replacement callback raise ITSVariableError, which the catch
rethrows unchanged, so errors propagate directly. -/
def processString (text : String) (vars : Props) : Except VarErr String :=
  match interpolate vars text.data with
  | .error e => .error e
  | .ok chars => .ok (String.mk chars)

end VarProc

namespace CondEval

/-- jsep expression AST restricted to the node kinds the evaluator
handles; `other` covers every further jsep node type (all mapped to the
unsupported-node error).  `memberComputed` / `memberNamed` encode
`node.computed` of a MemberExpression. -/
inductive JSNode where
  | lit (v : JSValue)
  | identifier (name : String)
  | memberComputed (object property : JSNode)
  | memberNamed (object : JSNode) (name : String)
  | binary (op : String) (left right : JSNode)
  | logical (op : String) (left right : JSNode)
  | unary (op : String) (argument : JSNode)
  | arrayLit (elements : List JSNode)
  | other (nodeType : String)

/-- Is the value `undefined` or `null`? -/
def isNullish : JSValue → Bool
  | .undefined => true
  | .null => true
  | _ => false

/-- Is the value of the ECMAScript Object language type (compared by
reference in the equality operators): an array, a plain object, or a
host value — an inherited built-in function or `Object.prototype`? -/
def isObjLike : JSValue → Bool
  | .arr _ => true
  | .obj _ => true
  | .native _ _ => true
  | _ => false

/-- JavaScript `Number(string)` restricted to the integral numerals the
verified properties use: whitespace-trimmed, empty means `0`, an
optional sign followed by digits; every other numeral (fractions,
exponents, hex, `Infinity`) is treated as `NaN` in this model. -/
def allDigitsVal (l : List Char) : Option Nat :=
  if l ≠ [] && l.all Char.isDigit then
    some (l.foldl (fun acc c => acc * 10 + (c.toNat - 48)) 0)
  else none

/-- String-to-number coercion (see `allDigitsVal` for the scope). -/
def strToNumber (s : String) : Option Int :=
  match VarProc.trimChars s.data with
  | [] => some 0
  | '-' :: ds => (allDigitsVal ds).map (fun n => -(n : Int))
  | '+' :: ds => (allDigitsVal ds).map (fun n => (n : Int))
  | ds => (allDigitsVal ds).map (fun n => (n : Int))

/-- JavaScript `ToNumber`; `none` models `NaN`.  Every host value
(function or `Object.prototype`) coerces to `NaN`. -/
def jsToNumber : JSValue → Option Int
  | .undefined => none
  | .null => some 0
  | .nan => none
  | .bool b => some (if b then 1 else 0)
  | .num n => some n
  | .str s => strToNumber s
  | .arr elems => strToNumber (arrayJoin elems)
  | .obj _ => none
  | .native _ _ => none

/-- Primitive coercion used by the loose equality and relational
operators: booleans become numbers, arrays their join string, plain
objects their `[object Object]` string, host values (functions and
`Object.prototype`) their `String(value)` form. -/
def loosePrim : JSValue → JSValue
  | .bool b => .num (if b then 1 else 0)
  | .arr elems => .str (arrayJoin elems)
  | .obj _ => .str "[object Object]"
  | .native o n => .str (jsToString (.native o n))
  | v => v

/-- JavaScript strict equality `===` on the modelled values.  Arrays
and objects compare by reference; the embedding has no object identity
for literals, and the evaluator only ever compares values produced by
distinct subexpression evaluations, so object-object and array-array
comparisons are modelled as `false`.  Two inherited built-ins are the
same reference exactly when they are the same property of the same
prototype. -/
def jsStrictEq : JSValue → JSValue → Bool
  | .undefined, .undefined => true
  | .null, .null => true
  | .bool a, .bool b => a = b
  | .num a, .num b => a = b
  | .str a, .str b => a = b
  | .native o1 n1, .native o2 n2 => o1 = o2 && n1 = n2
  | _, _ => false

/-- JavaScript loose equality `==` on the modelled values (two values
of the Object language type compare by reference, as in
`jsStrictEq`). -/
def jsLooseEq (a b : JSValue) : Bool :=
  if isNullish a || isNullish b then isNullish a && isNullish b
  else if isObjLike a && isObjLike b then jsStrictEq a b
  else
    match loosePrim a, loosePrim b with
    | .num x, .num y => x = y
    | .str x, .str y => x = y
    | .num x, .str s =>
      (match strToNumber s with
       | some y => decide (x = y)
       | none => false)
    | .str s, .num y =>
      (match strToNumber s with
       | some x => decide (x = y)
       | none => false)
    | _, _ => false

/-- JavaScript `<`: string-string is lexicographic, otherwise numeric
with `NaN` making the comparison false. -/
def jsLess (a b : JSValue) : Bool :=
  match loosePrim a, loosePrim b with
  | .str x, .str y => decide (x < y)
  | pa, pb =>
    match jsToNumber pa, jsToNumber pb with
    | some x, some y => decide (x < y)
    | _, _ => false

/-- JavaScript `<=` (false whenever a side coerces to `NaN`). -/
def jsLessEq (a b : JSValue) : Bool :=
  match loosePrim a, loosePrim b with
  | .str x, .str y => decide (x ≤ y)
  | pa, pb =>
    match jsToNumber pa, jsToNumber pb with
    | some x, some y => decide (x ≤ y)
    | _, _ => false

/-- Unary `-`: `ToNumber` then negate; `NaN` propagates. -/
def jsNeg (v : JSValue) : JSValue :=
  match jsToNumber v with
  | some n => .num (-n)
  | none => .nan

/-- Unary `+`: `ToNumber`; `NaN` propagates. -/
def jsPlus (v : JSValue) : JSValue :=
  match jsToNumber v with
  | some n => .num n
  | none => .nan

/-- ConditionalEvaluator.validatePropertyAccess, the blocked property
set. -/
def dangerousProperties : List String :=
  ["constructor", "prototype", "__proto__", "__defineGetter__",
   "__defineSetter__", "__lookupGetter__", "__lookupSetter__"]

/-- ConditionalEvaluator.validatePropertyAccess
(conditional-evaluator.ts:218-259), checks in source order: block the
dangerous property names (string keys), then block any access on a
function object (the inherited prototype built-ins are the function
values of the model), then bounds-check numeric indexes on arrays —
normalizing a negative index only for the check. -/
def validatePropertyAccess (object property : JSValue) : Except EvalErr Unit :=
  match property with
  | .str s =>
    if dangerousProperties.contains s then .error (.dangerousPropertyAccess s)
    else if isFunctionValue object then .error .functionPropertyAccess
    else .ok ()
  | .num i =>
    if isFunctionValue object then .error .functionPropertyAccess
    else
      match object with
      | .arr elems =>
        if i < 0 then
          let actualIndex := (elems.length : Int) + i
          if actualIndex < 0 || actualIndex ≥ (elems.length : Int) then
            .error (.indexOutOfBounds i)
          else .ok ()
        else if i ≥ (elems.length : Int) then .error (.indexOutOfBounds i)
        else .ok ()
      | _ => .ok ()
  | _ =>
    if isFunctionValue object then .error .functionPropertyAccess
    else .ok ()

/-- The JavaScript indexing `object[property]` performed by the
MemberExpression case after validation.  An integer key hits the array
element only when it lies in `[0, length)`; a negative integer becomes
the absent string key (such as `"-1"`) on the array object and yields
`undefined`.  A read that misses every own key continues along the
prototype chain: plain objects stringify the key, try the own
properties and then `Object.prototype`; arrays fall back to
`Array.prototype` then `Object.prototype` for non-index string keys;
strings and the primitive numbers/booleans read their wrapper
prototype the same way. -/
def jsGetMember (object property : JSValue) : JSValue :=
  match object, property with
  | .arr elems, .num i =>
    if 0 ≤ i ∧ i < (elems.length : Int) then elems.getD i.toNat .undefined
    else .undefined
  | .arr elems, .str s =>
    (match s.toNat? with
     | some n =>
       if toString n = s ∧ n < elems.length then elems.getD n .undefined
       else (arrayProtoRead s).getD .undefined
     | none => (arrayProtoRead s).getD .undefined)
  | .arr _, _ => .undefined
  | .obj props, p =>
    (match lookupOwn props (jsToString p) with
     | some v => some v
     | none => objectProtoRead (jsToString p)).getD .undefined
  | .str s, .num i =>
    if 0 ≤ i ∧ i < (s.length : Int) then .str (String.mk [s.data.getD i.toNat ' '])
    else .undefined
  | .str s, .str k =>
    (match k.toNat? with
     | some n =>
       if toString n = k ∧ n < s.length then
         .str (String.mk [s.data.getD n ' '])
       else (stringProtoRead k).getD .undefined
     | none => (stringProtoRead k).getD .undefined)
  | .num _, .str k => (numberProtoRead k).getD .undefined
  | .nan, .str k => (numberProtoRead k).getD .undefined
  | .bool _, .str k => (booleanProtoRead k).getD .undefined
  | .native o n, .str k =>
    -- reachable only for the Object.prototype object: a function object
    -- is rejected by validatePropertyAccess before this read.  Its own
    -- keys are objectPrototypeNames; its __proto__ accessor yields its
    -- prototype, null.
    if o = "Object" ∧ n = "__proto__" then
      if k = "__proto__" then .null else (objectProtoRead k).getD .undefined
    else .undefined
  | _, _ => .undefined

/-- The shared tail of the MemberExpression case
(conditional-evaluator.ts:134-142): the `length` special case on
arrays and strings, then validatePropertyAccess, then the raw
`object[property]` access. -/
def memberAccess (object property : JSValue) : Except EvalErr JSValue :=
  if (match property, object with
      | .str "length", .arr _ => true
      | .str "length", .str _ => true
      | _, _ => false) then
    .ok (.num (match object with
      | .arr elems => (elems.length : Int)
      | .str s => (s.length : Int)
      | _ => 0))
  else
    match validatePropertyAccess object property with
    | .error e => .error e
    | .ok _ => .ok (jsGetMember object property)

mutual

/-- ConditionalEvaluator.evaluateASTNode
(conditional-evaluator.ts:103-213).  The entry guard for non-object
nodes (`Invalid AST node`) is unreachable over the typed AST and is not
modelled; every other switch case is. -/
def evaluateASTNode (vars : Props) : JSNode → Except EvalErr JSValue
  | .lit v => .ok v
  | .identifier name =>
    -- `node.name in variables`: own keys first, then the prototype
    -- chain of the plain variables object — a name Object.prototype
    -- provides (constructor, toString, ...) passes the check and the
    -- read returns the inherited built-in instead of throwing
    match lookupOwn vars name with
    | some v => .ok v
    | none =>
      match objectProtoRead name with
      | some v => .ok v
      | none => .error (.undefinedVariable name)
  | .memberComputed objNode propNode =>
    match evaluateASTNode vars objNode with
    | .error e => .error e
    | .ok object =>
      if isNullish object then .error .nullPropertyAccess
      else
        match evaluateASTNode vars propNode with
        | .error e => .error e
        | .ok property => memberAccess object property
  | .memberNamed objNode name =>
    match evaluateASTNode vars objNode with
    | .error e => .error e
    | .ok object =>
      if isNullish object then .error .nullPropertyAccess
      else memberAccess object (.str name)
  | .binary op l r =>
    match evaluateASTNode vars l with
    | .error e => .error e
    | .ok left =>
      match evaluateASTNode vars r with
      | .error e => .error e
      | .ok right =>
        if op = "==" then .ok (.bool (jsLooseEq left right))
        else if op = "===" then .ok (.bool (jsStrictEq left right))
        else if op = "!=" then .ok (.bool (!jsLooseEq left right))
        else if op = "!==" then .ok (.bool (!jsStrictEq left right))
        else if op = "<" then .ok (.bool (jsLess left right))
        else if op = "<=" then .ok (.bool (jsLessEq left right))
        else if op = ">" then .ok (.bool (jsLess right left))
        else if op = ">=" then .ok (.bool (jsLessEq right left))
        else if op = "&&" then .ok (if truthy left then right else left)
        else if op = "||" then .ok (if truthy left then left else right)
        else .error (.unsupportedBinary op)
  | .logical op l r =>
    match evaluateASTNode vars l with
    | .error e => .error e
    | .ok leftVal =>
      if op = "&&" || op = "and" then
        if truthy leftVal then evaluateASTNode vars r else .ok leftVal
      else if op = "||" || op = "or" then
        if truthy leftVal then .ok leftVal else evaluateASTNode vars r
      else .error (.unsupportedLogical op)
  | .unary op argument =>
    if op = "!" then
      match evaluateASTNode vars argument with
      | .error e => .error e
      | .ok v => .ok (.bool (!truthy v))
    else if op = "-" then
      match evaluateASTNode vars argument with
      | .error e => .error e
      | .ok v => .ok (jsNeg v)
    else if op = "+" then
      match evaluateASTNode vars argument with
      | .error e => .error e
      | .ok v => .ok (jsPlus v)
    else .error (.unsupportedUnary op)
  | .arrayLit elements =>
    match evalElements vars elements with
    | .error e => .error e
    | .ok vs => .ok (.arr vs)
  | .other nodeType => .error (.unsupportedNode nodeType)

/-- The `node.elements.map(...)` of the ArrayExpression case. -/
def evalElements (vars : Props) : List JSNode → Except EvalErr (List JSValue)
  | [] => .ok []
  | n :: rest =>
    match evaluateASTNode vars n with
    | .error e => .error e
    | .ok v =>
      match evalElements vars rest with
      | .error e => .error e
      | .ok vs => .ok (v :: vs)

end

/-- Match at a position with a preceding word boundary: position 0, or
the previous character is not a word character.  All deny-list
alternatives start with a word character, so `\b` reduces to this. -/
def boundedAfter (p : List Char → Bool) : List Char → Bool
  | [] => false
  | c :: rest => (!Security.isWordChar c && p rest) || boundedAfter p rest

/-- Containment of a `\b`-anchored pattern. -/
def anyPosBound (p : List Char → Bool) (s : List Char) : Bool :=
  p s || boundedAfter p s

/-- Trailing word boundary: end of input or a non-word character. -/
def wordEndBoundary : List Char → Bool
  | [] => true
  | c :: _ => !Security.isWordChar c

/-- Match of keyword + trailing `\b` at the current position. -/
def kwAt (n : List Char) (s : List Char) : Bool :=
  match Security.dropLit n s with
  | some r => wordEndBoundary r
  | none => false

/-- Scanning part of `__\w+__`: after the opening double underscore,
consume one or more word characters and find a closing double
underscore. -/
def dunderScan : List Char → Bool → Bool
  | s, seen =>
    (seen && Security.startsLit "__".data s) ||
    (match s with
     | c :: rest => Security.isWordChar c && dunderScan rest true
     | [] => false)

/-- Match of `__\w+__` at the current position. -/
def dunderAt (s : List Char) : Bool :=
  match Security.dropLit "__".data s with
  | some r => dunderScan r false
  | none => false

/-- Match of `\.\s*lit\s*\.` at the current position (the
constructor / prototype / proto chain patterns). -/
def dotWsLitWsDot (lit : List Char) (s : List Char) : Bool :=
  match s with
  | '.' :: r =>
    (match Security.dropLit lit (Security.dropWs r) with
     | some r2 => Security.startsLit ".".data (Security.dropWs r2)
     | none => false)
  | _ => false

/-- The deny-list of ConditionalEvaluator.validateConditionSecurity
(conditional-evaluator.ts:79-97).  The first two patterns carry the `i`
flag and are matched on the lower-cased characters; the remaining four
are case-sensitive and matched on the raw characters. -/
def condDenyListHit (condition : String) : Bool :=
  let lower := Security.lowerChars condition
  let raw := condition.data
  anyPosBound (fun s =>
    ["eval", "exec", "function", "settimeout", "setinterval"].any
      (fun n => Security.litWsLitAt n.data "(".data s)) lower ||
  anyPosBound (fun s =>
    ["import", "require", "global", "window", "document", "process"].any
      (fun n => kwAt n.data s)) lower ||
  Security.anyPosition dunderAt raw ||
  Security.anyPosition (dotWsLitWsDot "constructor".data) raw ||
  Security.anyPosition (dotWsLitWsDot "prototype".data) raw ||
  Security.anyPosition (dotWsLitWsDot "__proto__".data) raw

/-- ConditionalEvaluator.validateConditionSecurity: length limit, then
the expression deny-list. -/
def validateConditionSecurity (maxExpressionLength : Nat) (condition : String) :
    Except SecErr Unit :=
  if condition.length > maxExpressionLength then
    .error (.expressionTooLong condition.length)
  else if condDenyListHit condition then
    .error (.dangerousExpression (condition.take 100))
  else .ok ()

/-- ConditionalEvaluator.evaluateCondition
(conditional-evaluator.ts:47-65): security validation, then jsep parse
and AST evaluation inside a try whose catch wraps any thrown error into
one ITSSecurityError naming the condition; the result is coerced with
`Boolean(...)`.  `jsepF` models the external jsep parser (a parse throw
is an `.error`). -/
def evaluateCondition (maxExpressionLength : Nat)
    (jsepF : String → Except EvalErr JSNode) (condition : String) (vars : Props) :
    Except SecErr Bool :=
  match validateConditionSecurity maxExpressionLength condition with
  | .error e => .error e
  | .ok _ =>
    match (match jsepF condition with
           | .error e => .error e
           | .ok ast => evaluateASTNode vars ast : Except EvalErr JSValue) with
    | .error e => .error (.conditionalEvaluation condition e)
    | .ok result => .ok (truthy result)

/-- ConditionalEvaluator.evaluateContent (conditional-evaluator.ts:
18-42): conditionals evaluate their condition and splice in the
recursively evaluated `content` branch when true, the recursively
evaluated `else` branch when false and present (an empty `else` array
is present), and nothing when false and absent; every other element is
pushed through unchanged. -/
def evaluateContent (maxExpressionLength : Nat)
    (jsepF : String → Except EvalErr JSNode) (vars : Props) :
    List ContentElement → Except SecErr (List ContentElement)
  | [] => .ok []
  | .conditional condition content els :: rest =>
    match evaluateCondition maxExpressionLength jsepF condition vars with
    | .error e => .error e
    | .ok conditionResult =>
      if conditionResult then
        match evaluateContent maxExpressionLength jsepF vars content with
        | .error e => .error e
        | .ok nested =>
          match evaluateContent maxExpressionLength jsepF vars rest with
          | .error e => .error e
          | .ok r => .ok (nested ++ r)
      else
        match els with
        | some es =>
          match evaluateContent maxExpressionLength jsepF vars es with
          | .error e => .error e
          | .ok elseContent =>
            match evaluateContent maxExpressionLength jsepF vars rest with
            | .error e => .error e
            | .ok r => .ok (elseContent ++ r)
        | none => evaluateContent maxExpressionLength jsepF vars rest
  | e :: rest =>
    match evaluateContent maxExpressionLength jsepF vars rest with
    | .error e2 => .error e2
    | .ok r => .ok (e :: r)

/-- Acceptance of every conditional expression occurring in a content
tree: each condition (in both branches, taken or not) evaluates without
error.  This is the domain over which C6 states totality. -/
def conditionsOk (maxExpressionLength : Nat)
    (jsepF : String → Except EvalErr JSNode) (vars : Props) :
    List ContentElement → Bool
  | [] => true
  | .conditional condition content els :: rest =>
    (evaluateCondition maxExpressionLength jsepF condition vars).isOk &&
    conditionsOk maxExpressionLength jsepF vars content &&
    (match els with
     | some es => conditionsOk maxExpressionLength jsepF vars es
     | none => true) &&
    conditionsOk maxExpressionLength jsepF vars rest
  | _ :: rest => conditionsOk maxExpressionLength jsepF vars rest

end CondEval

/-- Is a content element a conditional? -/
def isConditionalElem : ContentElement → Bool
  | .conditional _ _ _ => true
  | _ => false

namespace Claims

/-- C4: validateSchemaUrl rejects `http://169.254.169.254/` under the
default security configuration even with allowHttp set to true, because
the hostname matches the 169.254/16 link-local private range; and
loadSchema propagates that rejection before consulting the cache or the
network, whatever the fetch would have returned. -/
theorem C4_link_local_rejected :
    Security.validateSchemaUrl { DEFAULT_SECURITY_CONFIG with allowHttp := true }
      "http://169.254.169.254/" =
      .error (.privateNetworkBlocked "169.254.169.254") ∧
    (∀ (st : Loader.LoaderState) (now : Int) (fetched : Except String Loader.Schema),
      Loader.loadSchema { DEFAULT_SECURITY_CONFIG with allowHttp := true } st
        "http://169.254.169.254/" now fetched =
        .error (.privateNetworkBlocked "169.254.169.254")) := by
  constructor
  · rfl
  · intro st now fetched
    rfl

/-- C3 (code bug): over `variables = { items: [1, 2, 3] }`, the
expression-evaluator member access `items[-1]` silently yields
`undefined` — the bounds check of validatePropertyAccess accepts the
normalized index but `object[property]` is then performed with the raw
`-1`, an absent array key — while the interpolation-path resolver
returns the last element `3` for the same reference, and a genuinely
out-of-range negative index does error on both paths. -/
theorem C3_negative_index_bug :
    CondEval.evaluateASTNode [("items", true, .arr [.num 1, .num 2, .num 3])]
      (.memberComputed (.identifier "items") (.unary "-" (.lit (.num 1)))) =
      .ok .undefined ∧
    VarProc.resolveVariableReference "items[-1]"
      [("items", true, .arr [.num 1, .num 2, .num 3])] = .ok (.num 3) ∧
    CondEval.evaluateASTNode [("items", true, .arr [.num 1, .num 2, .num 3])]
      (.memberComputed (.identifier "items") (.unary "-" (.lit (.num 4)))) =
      .error (.indexOutOfBounds (-4)) ∧
    VarProc.resolveVariableReference "items[-4]"
      [("items", true, .arr [.num 1, .num 2, .num 3])] =
      .error (.indexOutOfBounds (-4) 3 "items[-4]") := by
  refine ⟨rfl, ?_, rfl, ?_⟩ <;>
    (simp +decide [VarProc.resolveVariableReference, VarProc.parseVariableReference,
      VarProc.parseRefLoop, VarProc.collectIdx, VarProc.resolveParts,
      VarProc.isValidVariableReference]
     rfl)

/-- C2 (counterexample): the text `<script>` — which contains the exact
substring `<script>` — passes the text deny-list, because the script
pattern `<script[^>]*>.*?<\/script>` requires a closing tag on the same
line and no other pattern matches. -/
theorem C2_counterexample :
    Security.validateTextContent "<script>" = .ok () := by
  rfl

/-- C1 (counterexample): a compilation whose template declares no
variables and whose caller supplies `{ constructor: 1 }` passes the
variables validation-and-merge phase of compile() — the merged
variables, own key `constructor` included, flow on into substitution
with no security violation raised. -/
theorem C1_counterexample :
    Compiler.compileVariablesPhase DEFAULT_SECURITY_CONFIG none
      (some [("constructor", true, .num 1)]) =
      .ok [("constructor", true, .num 1)] ∧
    "constructor" ∈ ownNames [("constructor", true, JSValue.num 1)] := by
  constructor
  · rfl
  · simp [ownNames]

/-- C1 (amended): the template-declared variables tree is rejected by
the compile() validation phase whenever its own-key set contains
`__proto__`, `constructor` or `prototype`, however the key was set —
`lookupOwn` ignores the enumerability flag, so non-enumerable own
properties are caught too; caller-supplied variables merged in
compile() bypass this validation (see the counterexample). -/
theorem C1_amended (cfg : SecurityConfig) (tv : Props) (cv : Option Props) (k : String)
    (hk : k = "__proto__" ∨ k = "constructor" ∨ k = "prototype")
    (hmem : (lookupOwn tv k).isSome = true) :
    ∃ e, Compiler.compileVariablesPhase cfg (some tv) cv = .error e := by
  have hval : ∃ e, Security.validateVariables cfg tv "" 0 = .error e := by
    rw [Security.validateVariables]
    split_ifs with h1 h2 h3 h4 h5
    · exact ⟨_, rfl⟩
    · exact ⟨_, rfl⟩
    · exact ⟨_, rfl⟩
    · exact ⟨_, rfl⟩
    · exact ⟨_, rfl⟩
    · rcases hk with hk | hk | hk <;> subst hk <;> simp_all
  obtain ⟨e, he⟩ := hval
  refine ⟨e, ?_⟩
  simp [Compiler.compileVariablesPhase, he]

/-- C1 amended, witnessed at a concrete input: a template-declared
variables object carrying `prototype` as a non-enumerable own property
is rejected. -/
theorem C1_amended_witness :
    ("prototype" = "__proto__" ∨ "prototype" = "constructor" ∨ "prototype" = "prototype") ∧
    (lookupOwn [("prototype", false, JSValue.num 1)] "prototype").isSome = true ∧
    ∃ e, Compiler.compileVariablesPhase DEFAULT_SECURITY_CONFIG
      (some [("prototype", false, JSValue.num 1)]) none = .error e :=
  ⟨Or.inr (Or.inr rfl), rfl,
   C1_amended DEFAULT_SECURITY_CONFIG [("prototype", false, JSValue.num 1)] none
     "prototype" (Or.inr (Or.inr rfl)) rfl⟩

/-- C2 (amended): the deny-list is position- and case-independent for
`javascript:` — any text containing it anywhere, in any letter case, is
rejected — while a `<script...>` open tag is rejected only when a
matching `</script>` close tag follows with no line terminator in
between; a bare `<script>` passes (see the counterexample). -/
theorem C2_amended (text : String)
    (h : Security.anyPosition (Security.startsLit "javascript:".data)
           (Security.lowerChars text) = true ∨
         ∃ a b c d, Security.lowerChars text =
             a ++ ("<script".data ++ (b ++ ('>' :: (c ++ ("</script>".data ++ d))))) ∧
           (∀ ch ∈ b, ch ≠ '>') ∧ (∀ ch ∈ c, Security.isLineTerm ch = false)) :
    Security.validateTextContent text = .error (.maliciousText (text.take 100)) := by
  have hhit : Security.textDenyListHit text = true := by
    unfold Security.textDenyListHit
    rcases h with h | ⟨a, b, c, d, heq, hb, hc⟩
    · have hjs : Security.anyPosition
          (Security.litWsLitAt "javascript".data ":".data)
          (Security.lowerChars text) = true :=
        Security.anyPosition_mono (fun t ht => Security.jsColonAt_of_adjacent ht) h
      simp [hjs]
    · have hscript : Security.anyPosition Security.scriptTagAt
          (Security.lowerChars text) = true := by
        rw [heq]
        exact Security.anyPosition_append_left _ a
          (Security.anyPosition_of_here (Security.scriptTagAt_of_parts b c d hb hc))
      simp [hscript]
  simp [Security.validateTextContent, hhit]

/-- C2 amended, witnessed at a concrete input: mixed-case
`JavaScript:` in the middle of a text is rejected. -/
theorem C2_amended_witness :
    (Security.anyPosition (Security.startsLit "javascript:".data)
       (Security.lowerChars "See JavaScript:alert now") = true) ∧
    Security.validateTextContent "See JavaScript:alert now" =
      .error (.maliciousText ("See JavaScript:alert now".take 100)) :=
  ⟨by decide, C2_amended "See JavaScript:alert now" (Or.inl (by decide))⟩

/-- C7: with `extends:[A,B]` both defining instruction type T and the
template inline custom types also defining T, loadInstructionTypes maps
T to the custom definition (source `custom`) and produces exactly two
override records in order: a schema-extension override of the A
definition by B, then a custom override of the B definition by the
inline one. -/
theorem C7_override_precedence (A B T : String)
    (dA dB dC : Loader.RawType) (schemaFor : String → Loader.Schema)
    (hA : schemaFor A = ⟨[(T, dA)]⟩) (hB : schemaFor B = ⟨[(T, dB)]⟩) :
    Compiler.loadInstructionTypes schemaFor [A, B] [(T, dC)] =
      ([(T, ⟨dC.template, dC.description, dC.configSchema, some "custom"⟩)],
       [⟨T, B, A, .schemaExtension⟩,
        ⟨T, "customInstructionTypes", B, .custom⟩]) := by
  simp [Compiler.loadInstructionTypes, hA, hB, Compiler.applySchemaEntry,
        Compiler.applyCustomEntry, Compiler.setType, List.lookup]

/-- C7, witnessed at concrete schemas and URLs. -/
theorem C7_witness :
    ((fun u => if u = "https://a.example/s.json" then
        (⟨[("para", ⟨"A body", none, none⟩)]⟩ : Loader.Schema)
      else ⟨[("para", ⟨"B body", none, none⟩)]⟩) "https://a.example/s.json" =
        (⟨[("para", ⟨"A body", none, none⟩)]⟩ : Loader.Schema)) ∧
    Compiler.loadInstructionTypes
      (fun u => if u = "https://a.example/s.json" then
        (⟨[("para", ⟨"A body", none, none⟩)]⟩ : Loader.Schema)
      else ⟨[("para", ⟨"B body", none, none⟩)]⟩)
      ["https://a.example/s.json", "https://b.example/s.json"]
      [("para", ⟨"C body", none, none⟩)] =
      ([("para", ⟨"C body", none, none, some "custom"⟩)],
       [⟨"para", "https://b.example/s.json", "https://a.example/s.json",
          .schemaExtension⟩,
        ⟨"para", "customInstructionTypes", "https://b.example/s.json", .custom⟩]) :=
  ⟨rfl,
   C7_override_precedence "https://a.example/s.json" "https://b.example/s.json" "para"
     ⟨"A body", none, none⟩ ⟨"B body", none, none⟩ ⟨"C body", none, none⟩ _ rfl rfl⟩

/-- C8: a loadSchema call made at or before a cache entry expiry
returns the cached schema object with the state unchanged and zero
fetches; the first call after expiry deletes the entry and performs
exactly one fresh fetch, storing the new schema with a fresh expiry. -/
theorem C8_cache_ttl (cfg : SecurityConfig) (st : Loader.LoaderState) (url : String)
    (entry : Loader.CacheEntry) (now : Int)
    (hvalid : Security.validateSchemaUrl cfg url = .ok ())
    (hentry : st.cache.lookup url = some entry) :
    (∀ fetched, now ≤ entry.expiresAt →
      Loader.loadSchema cfg st url now fetched = .ok (entry.schema, st, 0)) ∧
    (∀ schema, now > entry.expiresAt →
      Loader.loadSchema cfg st url now (.ok schema) =
        .ok (schema,
          ⟨(url, ⟨schema, now, now + st.cacheTTL⟩) :: Loader.deleteEntry st.cache url,
           st.cacheTTL⟩, 1)) := by
  constructor
  · intro fetched hle
    have hnot : ¬ (now > entry.expiresAt) := by omega
    simp [Loader.loadSchema, hvalid, Loader.getFromCache, hentry, hnot]
  · intro schema hgt
    simp [Loader.loadSchema, hvalid, Loader.getFromCache, hentry, hgt,
          Loader.saveToCache, Loader.deleteEntry_idem]

/-- C8, witnessed on a concrete loader state: a hit before expiry with
no fetch, and the first lookup after expiry evicting and fetching once. -/
theorem C8_witness :
    (Security.validateSchemaUrl DEFAULT_SECURITY_CONFIG
      "https://example.com/s.json" = .ok ()) ∧
    ((Loader.LoaderState.mk
        [("https://example.com/s.json", ⟨⟨[]⟩, 0, 1000⟩)] 3600).cache.lookup
      "https://example.com/s.json" = some ⟨⟨[]⟩, 0, 1000⟩) ∧
    ((500 : Int) ≤ 1000) ∧
    Loader.loadSchema DEFAULT_SECURITY_CONFIG
      ⟨[("https://example.com/s.json", ⟨⟨[]⟩, 0, 1000⟩)], 3600⟩
      "https://example.com/s.json" 500 (.ok ⟨[("x", ⟨"t", none, none⟩)]⟩) =
      .ok (⟨[]⟩, ⟨[("https://example.com/s.json", ⟨⟨[]⟩, 0, 1000⟩)], 3600⟩, 0) ∧
    ((2000 : Int) > 1000) ∧
    Loader.loadSchema DEFAULT_SECURITY_CONFIG
      ⟨[("https://example.com/s.json", ⟨⟨[]⟩, 0, 1000⟩)], 3600⟩
      "https://example.com/s.json" 2000 (.ok ⟨[("x", ⟨"t", none, none⟩)]⟩) =
      .ok (⟨[("x", ⟨"t", none, none⟩)]⟩,
        ⟨[("https://example.com/s.json", ⟨⟨[("x", ⟨"t", none, none⟩)]⟩, 2000, 5600⟩)],
         3600⟩, 1) := by
  refine ⟨rfl, rfl, by omega, ?_, by omega, ?_⟩
  · exact (C8_cache_ttl DEFAULT_SECURITY_CONFIG
      ⟨[("https://example.com/s.json", ⟨⟨[]⟩, 0, 1000⟩)], 3600⟩
      "https://example.com/s.json" ⟨⟨[]⟩, 0, 1000⟩ 500 rfl rfl).1 _ (by decide)
  · have h2 := (C8_cache_ttl DEFAULT_SECURITY_CONFIG
      ⟨[("https://example.com/s.json", ⟨⟨[]⟩, 0, 1000⟩)], 3600⟩
      "https://example.com/s.json" ⟨⟨[]⟩, 0, 1000⟩ 2000 rfl rfl).2
      ⟨[("x", ⟨"t", none, none⟩)]⟩ (by decide)
    simpa [Loader.deleteEntry] using h2

/-- The jsep stand-in used by the C9 counterexample: parses the
condition `toString` to the identifier node `toString`. -/
def C9jsepProto : String → Except EvalErr CondEval.JSNode :=
  fun _ => .ok (.identifier "toString")

/-- C9 (counterexample): the identifier `toString` is not defined in the
supplied (empty) variables map, and its condition passes the deny-list,
yet no undefined-variable error is raised: the source's
`node.name in variables` check consults the prototype chain of the plain
variables object, so the read returns the inherited
`Object.prototype.toString` function and the condition silently
evaluates to `true`. -/
theorem C9_counterexample :
    lookupOwn [] "toString" = none ∧
    CondEval.condDenyListHit "toString" = false ∧
    C9jsepProto "toString" = .ok (.identifier "toString") ∧
    CondEval.evaluateASTNode [] (.identifier "toString") =
      .ok (.native "Object" "toString") ∧
    CondEval.evaluateCondition 500 C9jsepProto "toString" [] = .ok true := by
  have hd : CondEval.condDenyListHit "toString" = false := by decide
  refine ⟨rfl, hd, rfl, ?_, ?_⟩
  · simp +decide [CondEval.evaluateASTNode, lookupOwn, objectProtoRead,
      objectPrototypeNames]
  · simp +decide [CondEval.evaluateCondition, CondEval.validateConditionSecurity,
      hd, C9jsepProto, CondEval.evaluateASTNode, lookupOwn, objectProtoRead,
      objectPrototypeNames, truthy]

/-- C9 (amended): an Identifier node whose name is neither an own key of
the supplied variables map nor a property name `Object.prototype`
provides raises the undefined-variable error, and evaluateCondition
wraps it into an evaluation failure naming the expression — it never
yields `false`.  (For an undefined name `Object.prototype` does provide
— `constructor`, `toString`, `valueOf`, ... — the `in` check passes and
evaluation silently returns the inherited built-in function, which the
condition coerces to `true`: see the counterexample.) -/
theorem C9_undefined_identifier (maxLen : Nat)
    (jsepF : String → Except EvalErr CondEval.JSNode)
    (condition name : String) (vars : Props)
    (hlen : condition.length ≤ maxLen)
    (hdeny : CondEval.condDenyListHit condition = false)
    (hparse : jsepF condition = .ok (.identifier name))
    (hname : lookupOwn vars name = none)
    (hproto : objectPrototypeNames.contains name = false) :
    CondEval.evaluateASTNode vars (.identifier name) =
      .error (.undefinedVariable name) ∧
    CondEval.evaluateCondition maxLen jsepF condition vars =
      .error (.conditionalEvaluation condition (.undefinedVariable name)) := by
  have hpr : objectProtoRead name = none := by
    have hmem : name ∉ objectPrototypeNames := by simpa using hproto
    simp [objectProtoRead, hmem]
  constructor
  · simp [CondEval.evaluateASTNode, hname, hpr]
  · have hnotlong : ¬ (condition.length > maxLen) := by omega
    simp [CondEval.evaluateCondition, CondEval.validateConditionSecurity, hnotlong,
          hdeny, hparse, CondEval.evaluateASTNode, hname, hpr]

/-- The jsep stand-in used by the C9 witness: parses the condition `x`
to the identifier node `x`. -/
def C9jsep : String → Except EvalErr CondEval.JSNode :=
  fun _ => .ok (.identifier "x")

/-- C9 (amended), witnessed at the concrete condition `x` over an empty
variable store: `x` is no own key and no `Object.prototype` name, so the
evaluation fails with the wrapped undefined-variable error. -/
theorem C9_undefined_identifier_witness :
    ("x".length ≤ 500) ∧
    (CondEval.condDenyListHit "x" = false) ∧
    (C9jsep "x" = .ok (.identifier "x")) ∧
    (lookupOwn [] "x" = none) ∧
    (objectPrototypeNames.contains "x" = false) ∧
    CondEval.evaluateCondition 500 C9jsep "x" [] =
      .error (.conditionalEvaluation "x" (.undefinedVariable "x")) :=
  ⟨by decide, by decide, rfl, rfl, by decide,
   (C9_undefined_identifier 500 C9jsep "x" "x" [] (by decide) (by decide) rfl rfl
     (by decide)).2⟩

/-- C10: in the prompt-assembly loop, a placeholder whose generated
instruction already starts with `<<` and ends with `>>` is emitted
unchanged, whatever instruction wrapper is configured; any other
instruction is pushed through the wrapper (first-occurrence literal
replacement of the `instruction` slot). -/
theorem C10_bracketed_instruction_unchanged
    (instructionTypes : List (String × Compiler.InstructionTypeDefinition))
    (wrapper ty : String) (config : List (String × JSValue)) (id : Option String)
    (rest : List ContentElement) (instruction : String) (pieces : List String)
    (hgen : Compiler.generateInstruction ty config id instructionTypes = .ok instruction)
    (hrest : Compiler.processedPieces instructionTypes wrapper rest = .ok pieces) :
    ((Security.startsLit "<<".data instruction.data &&
        Security.endsLit ">>".data instruction.data) = true →
      Compiler.processedPieces instructionTypes wrapper
        (.placeholder ty config id :: rest) = .ok (instruction :: pieces)) ∧
    ((Security.startsLit "<<".data instruction.data &&
        Security.endsLit ">>".data instruction.data) = false →
      Compiler.processedPieces instructionTypes wrapper
        (.placeholder ty config id :: rest) =
        .ok (replaceFirst wrapper "{instruction}" instruction :: pieces)) := by
  constructor
  · intro hbr
    simp [Compiler.processedPieces, hgen, hrest, hbr]
  · intro hbr
    simp [Compiler.processedPieces, hgen, hrest, hbr]

/-- C10, witnessed at a concrete bracketed instruction and a custom
wrapper that would otherwise rewrite it. -/
theorem C10_witness :
    (Compiler.generateInstruction "t" [("description", .str "X")] none
      [("t", ⟨"<<do {description}>>", none, none, none⟩)] = .ok "<<do X>>") ∧
    (Compiler.processedPieces [("t", ⟨"<<do {description}>>", none, none, none⟩)]
      "[[{instruction}]]" [] = .ok []) ∧
    ((Security.startsLit "<<".data "<<do X>>".data &&
        Security.endsLit ">>".data "<<do X>>".data) = true) ∧
    Compiler.processedPieces [("t", ⟨"<<do {description}>>", none, none, none⟩)]
      "[[{instruction}]]" [.placeholder "t" [("description", .str "X")] none] =
      .ok ["<<do X>>"] := by
  have hgen : Compiler.generateInstruction "t" [("description", .str "X")] none
      [("t", ⟨"<<do {description}>>", none, none, none⟩)] = .ok "<<do X>>" := by
    simp +decide [Compiler.generateInstruction, Compiler.formatInstruction, replaceAll,
          replaceAllChars, Security.dropLit, jsToString]
  refine ⟨hgen, rfl, by decide, ?_⟩
  exact (C10_bracketed_instruction_unchanged
    [("t", ⟨"<<do {description}>>", none, none, none⟩)] "[[{instruction}]]" "t"
    [("description", .str "X")] none [] "<<do X>>" [] hgen rfl).1 (by decide)

end Claims

def noCondAux (mel : Nat) (jsepF : String → Except EvalErr CondEval.JSNode) (vars : Props) :
    (content : List ContentElement) → ∀ out,
      CondEval.evaluateContent mel jsepF vars content = .ok out →
      ∀ e ∈ out, isConditionalElem e = false
  | [] => by
    intro out hout e he
    simp only [CondEval.evaluateContent] at hout
    simp at hout
    subst hout
    simp at he
  | .text t :: rest => by
    intro out hout e he
    simp only [CondEval.evaluateContent] at hout
    cases hrest : CondEval.evaluateContent mel jsepF vars rest with
    | error err => simp [hrest] at hout
    | ok r =>
      simp [hrest] at hout
      subst hout
      rcases List.mem_cons.mp he with he | he
      · subst he; rfl
      · exact noCondAux mel jsepF vars rest r hrest e he
  | .placeholder ty cfg id :: rest => by
    intro out hout e he
    simp only [CondEval.evaluateContent] at hout
    cases hrest : CondEval.evaluateContent mel jsepF vars rest with
    | error err => simp [hrest] at hout
    | ok r =>
      simp [hrest] at hout
      subst hout
      rcases List.mem_cons.mp he with he | he
      · subst he; rfl
      · exact noCondAux mel jsepF vars rest r hrest e he
  | .conditional c cs (some es) :: rest => by
    intro out hout e he
    simp only [CondEval.evaluateContent] at hout
    cases hcond : CondEval.evaluateCondition mel jsepF c vars with
    | error err => simp [hcond] at hout
    | ok b =>
      cases b with
      | true =>
        simp only [hcond] at hout
        cases hcs : CondEval.evaluateContent mel jsepF vars cs with
        | error err => simp [hcs] at hout
        | ok nested =>
          cases hrest : CondEval.evaluateContent mel jsepF vars rest with
          | error err => simp [hcs, hrest] at hout
          | ok r =>
            simp [hcs, hrest] at hout
            subst hout
            rcases List.mem_append.mp he with he | he
            · exact noCondAux mel jsepF vars cs nested hcs e he
            · exact noCondAux mel jsepF vars rest r hrest e he
      | false =>
        simp only [hcond] at hout
        cases hes : CondEval.evaluateContent mel jsepF vars es with
        | error err => simp [hes] at hout
        | ok elseContent =>
          cases hrest : CondEval.evaluateContent mel jsepF vars rest with
          | error err => simp [hes, hrest] at hout
          | ok r =>
            simp [hes, hrest] at hout
            subst hout
            rcases List.mem_append.mp he with he | he
            · exact noCondAux mel jsepF vars es elseContent hes e he
            · exact noCondAux mel jsepF vars rest r hrest e he
  | .conditional c cs none :: rest => by
    intro out hout e he
    simp only [CondEval.evaluateContent] at hout
    cases hcond : CondEval.evaluateCondition mel jsepF c vars with
    | error err => simp [hcond] at hout
    | ok b =>
      cases b with
      | true =>
        simp only [hcond] at hout
        cases hcs : CondEval.evaluateContent mel jsepF vars cs with
        | error err => simp [hcs] at hout
        | ok nested =>
          cases hrest : CondEval.evaluateContent mel jsepF vars rest with
          | error err => simp [hcs, hrest] at hout
          | ok r =>
            simp [hcs, hrest] at hout
            subst hout
            rcases List.mem_append.mp he with he | he
            · exact noCondAux mel jsepF vars cs nested hcs e he
            · exact noCondAux mel jsepF vars rest r hrest e he
      | false =>
        simp only [hcond] at hout
        cases hrest : CondEval.evaluateContent mel jsepF vars rest with
        | error err => simp [hrest] at hout
        | ok r =>
          simp [hrest] at hout
          subst hout
          exact noCondAux mel jsepF vars rest r hrest e he

def totalAux (mel : Nat) (jsepF : String → Except EvalErr CondEval.JSNode) (vars : Props) :
    (content : List ContentElement) →
      CondEval.conditionsOk mel jsepF vars content = true →
      ∃ out, CondEval.evaluateContent mel jsepF vars content = .ok out
  | [] => fun _ => ⟨[], by simp [CondEval.evaluateContent]⟩
  | .text t :: rest => by
    intro hok
    simp only [CondEval.conditionsOk] at hok
    obtain ⟨r, hr⟩ := totalAux mel jsepF vars rest hok
    exact ⟨.text t :: r, by simp [CondEval.evaluateContent, hr]⟩
  | .placeholder ty cfg id :: rest => by
    intro hok
    simp only [CondEval.conditionsOk] at hok
    obtain ⟨r, hr⟩ := totalAux mel jsepF vars rest hok
    exact ⟨.placeholder ty cfg id :: r, by simp [CondEval.evaluateContent, hr]⟩
  | .conditional c cs (some es) :: rest => by
    intro hok
    simp only [CondEval.conditionsOk, Bool.and_eq_true] at hok
    obtain ⟨⟨⟨hcond, hcs⟩, hes⟩, hrest⟩ := hok
    obtain ⟨rr, hr⟩ := totalAux mel jsepF vars rest hrest
    cases hcondeval : CondEval.evaluateCondition mel jsepF c vars with
    | error err => simp [hcondeval, Except.isOk, Except.toBool] at hcond
    | ok b =>
      cases b with
      | true =>
        obtain ⟨nested, hn⟩ := totalAux mel jsepF vars cs hcs
        exact ⟨nested ++ rr, by simp [CondEval.evaluateContent, hcondeval, hn, hr]⟩
      | false =>
        obtain ⟨ec, hec⟩ := totalAux mel jsepF vars es hes
        exact ⟨ec ++ rr, by simp [CondEval.evaluateContent, hcondeval, hec, hr]⟩
  | .conditional c cs none :: rest => by
    intro hok
    simp only [CondEval.conditionsOk, Bool.and_eq_true] at hok
    obtain ⟨⟨⟨hcond, hcs⟩, _⟩, hrest⟩ := hok
    obtain ⟨rr, hr⟩ := totalAux mel jsepF vars rest hrest
    cases hcondeval : CondEval.evaluateCondition mel jsepF c vars with
    | error err => simp [hcondeval, Except.isOk, Except.toBool] at hcond
    | ok b =>
      cases b with
      | true =>
        obtain ⟨nested, hn⟩ := totalAux mel jsepF vars cs hcs
        exact ⟨nested ++ rr, by simp [CondEval.evaluateContent, hcondeval, hn, hr]⟩
      | false =>
        exact ⟨rr, by simp [CondEval.evaluateContent, hcondeval, hr]⟩

namespace Claims

/-- C6: over every content list and variable store, evaluateContent
prunes exactly one branch of each conditional — a true condition keeps
the evaluated `content` branch and drops `else` whether present or not;
a false condition keeps the evaluated `else` branch (or nothing when
absent) and drops `content` — it is total over contents whose
conditional expressions are all accepted, and no conditional element
ever appears in a successful flattened output. -/
theorem C6_conditional_pruning (mel : Nat)
    (jsepF : String → Except EvalErr CondEval.JSNode) (vars : Props) :
    (∀ condition cs els rest outC outR,
      CondEval.evaluateCondition mel jsepF condition vars = .ok true →
      CondEval.evaluateContent mel jsepF vars cs = .ok outC →
      CondEval.evaluateContent mel jsepF vars rest = .ok outR →
      CondEval.evaluateContent mel jsepF vars
        (.conditional condition cs els :: rest) = .ok (outC ++ outR)) ∧
    (∀ condition cs es rest outE outR,
      CondEval.evaluateCondition mel jsepF condition vars = .ok false →
      CondEval.evaluateContent mel jsepF vars es = .ok outE →
      CondEval.evaluateContent mel jsepF vars rest = .ok outR →
      CondEval.evaluateContent mel jsepF vars
        (.conditional condition cs (some es) :: rest) = .ok (outE ++ outR)) ∧
    (∀ condition cs rest outR,
      CondEval.evaluateCondition mel jsepF condition vars = .ok false →
      CondEval.evaluateContent mel jsepF vars rest = .ok outR →
      CondEval.evaluateContent mel jsepF vars
        (.conditional condition cs none :: rest) = .ok outR) ∧
    (∀ content, CondEval.conditionsOk mel jsepF vars content = true →
      ∃ out, CondEval.evaluateContent mel jsepF vars content = .ok out) ∧
    (∀ content out, CondEval.evaluateContent mel jsepF vars content = .ok out →
      ∀ e ∈ out, isConditionalElem e = false) := by
  refine ⟨?_, ?_, ?_, totalAux mel jsepF vars, noCondAux mel jsepF vars⟩
  · intro condition cs els rest outC outR hcond hcs hrest
    cases els <;> simp [CondEval.evaluateContent, hcond, hcs, hrest]
  · intro condition cs es rest outE outR hcond hes hrest
    simp [CondEval.evaluateContent, hcond, hes, hrest]
  · intro condition cs rest outR hcond hrest
    simp [CondEval.evaluateContent, hcond, hrest]

/-- The jsep stand-in used by the C6 witness: parses the condition
`yes` to the literal `true` and any other condition to the literal
`false`. -/
def C6jsep : String → Except EvalErr CondEval.JSNode :=
  fun s => if s = "yes" then .ok (.lit (.bool true)) else .ok (.lit (.bool false))

/-- C6, witnessed at concrete conditionals: a true condition keeps the
then-branch and drops the else-branch, a false condition keeps the
else-branch. -/
theorem C6_witness :
    (CondEval.evaluateCondition 500 C6jsep "yes" [] = .ok true) ∧
    (CondEval.evaluateCondition 500 C6jsep "no" [] = .ok false) ∧
    (CondEval.evaluateContent 500 C6jsep []
      [.conditional "yes" [.text "a"] (some [.text "b"])] = .ok [.text "a"]) ∧
    (CondEval.evaluateContent 500 C6jsep []
      [.conditional "no" [.text "a"] (some [.text "b"])] = .ok [.text "b"]) := by
  have ha : CondEval.evaluateContent 500 C6jsep [] [.text "a"] = .ok [.text "a"] := by
    simp [CondEval.evaluateContent]
  have hb : CondEval.evaluateContent 500 C6jsep [] [.text "b"] = .ok [.text "b"] := by
    simp [CondEval.evaluateContent]
  have hnil : CondEval.evaluateContent 500 C6jsep [] [] = .ok [] := by
    simp [CondEval.evaluateContent]
  refine ⟨rfl, rfl, ?_, ?_⟩
  · have := (C6_conditional_pruning 500 C6jsep []).1 "yes" [.text "a"]
      (some [.text "b"]) [] [.text "a"] [] rfl ha hnil
    simpa using this
  · have := (C6_conditional_pruning 500 C6jsep []).2.1 "no" [.text "a"] [.text "b"]
      [] [.text "b"] [] rfl hb hnil
    simpa using this

end Claims

theorem interpolate_cons_ne_dollar (vars : Props) (c : Char) (rest : List Char)
    (hc : c ≠ '$') :
    VarProc.interpolate vars (c :: rest) =
      match VarProc.interpolate vars rest with
      | .error e => .error e
      | .ok t => .ok (c :: t) := by
  rcases rest with _ | ⟨r, rs⟩
  · rw [VarProc.interpolate.eq_3] <;> simp [hc]
  · by_cases hr : r = '{'
    · subst hr
      rw [VarProc.interpolate.eq_2]
      simp [hc]
    · rw [VarProc.interpolate.eq_3]
      · simp [hc]
      · intro rest2 hEq
        injection hEq with h1 h2
        exact hr h1

theorem interpolate_no_dollar (vars : Props) :
    ∀ {l : List Char}, (∀ c ∈ l, c ≠ '$') → VarProc.interpolate vars l = .ok l := by
  intro l h
  induction l with
  | nil => rw [VarProc.interpolate.eq_1]
  | cons c rest ih =>
    have hc : c ≠ '$' := h c (by simp)
    rw [interpolate_cons_ne_dollar vars c rest hc,
        ih (fun x hx => h x (by simp [hx]))]

theorem interpolate_append_prefix (vars : Props) (s : List Char) :
    ∀ {l : List Char}, (∀ c ∈ l, c ≠ '$') →
    VarProc.interpolate vars (l ++ s) =
      match VarProc.interpolate vars s with
      | .error e => .error e
      | .ok t => .ok (l ++ t) := by
  intro l h
  induction l with
  | nil =>
    simp only [List.nil_append]
    cases VarProc.interpolate vars s <;> rfl
  | cons c rest ih =>
    have hc : c ≠ '$' := h c (by simp)
    rw [List.cons_append, interpolate_cons_ne_dollar vars c (rest ++ s) hc,
        ih (fun x hx => h x (by simp [hx]))]
    cases VarProc.interpolate vars s <;> simp

theorem splitAtClose_append (post : List Char) :
    ∀ {ref : List Char}, (∀ c ∈ ref, c ≠ '}') →
    VarProc.splitAtClose (ref ++ '}' :: post) = some (ref, post) := by
  intro ref h
  induction ref with
  | nil => simp [VarProc.splitAtClose]
  | cons c cs ih =>
    have hc : c ≠ '}' := h c (by simp)
    simp [VarProc.splitAtClose, hc, ih (fun x hx => h x (by simp [hx]))]

theorem interpolate_token (vars : Props) (ref post : List Char)
    (hne : ref ≠ []) (hnb : ∀ c ∈ ref, c ≠ '}') (hpost : ∀ c ∈ post, c ≠ '$') :
    VarProc.interpolate vars ('$' :: '{' :: (ref ++ '}' :: post)) =
      match VarProc.resolveVariableReference (String.mk (VarProc.trimChars ref)) vars with
      | .error e => .error e
      | .ok v => .ok ((VarProc.sanitiseResolvedValue v).data ++ post) := by
  rw [VarProc.interpolate.eq_2, if_pos rfl]
  split
  next inner after hsplit =>
    rw [splitAtClose_append post hnb] at hsplit
    injection hsplit with hsplit
    have h1 : ref = inner := congrArg Prod.fst hsplit
    have h2 : post = after := congrArg Prod.snd hsplit
    subst h1
    subst h2
    rw [if_neg (by simpa [List.isEmpty_iff] using hne)]
    cases hres : VarProc.resolveVariableReference (String.mk (VarProc.trimChars ref)) vars with
    | error e => simp [hres]
    | ok v => simp [hres, interpolate_no_dollar vars hpost]
  next hsplit =>
    rw [splitAtClose_append post hnb] at hsplit
    exact absurd hsplit (by simp)

theorem strMkData (s : String) : String.mk s.data = s := by
  cases s
  rfl

theorem strDataAppend (a b : String) : (a ++ b).data = a.data ++ b.data := by
  cases a
  cases b
  rfl

theorem strCat3 (a b c : String) :
    String.mk (a.data ++ (b.data ++ c.data)) = a ++ b ++ c := by
  have h : (a ++ b ++ c).data = a.data ++ (b.data ++ c.data) := by
    simp [strDataAppend, List.append_assoc]
  rw [← h, strMkData]


namespace Claims

/-- C5: a `$\x7bname\x7d` interpolation token whose reference resolves
reproduces the resolved scalar in place (strings verbatim, booleans and
integral numbers via their canonical string form, numbers subject only
to the 1000-character truncation guard); a token whose reference fails
to resolve aborts the whole scan with that resolution error — the
output never contains the literal token or an empty substitution. -/
theorem C5_interpolation (vars : Props) (ref pre post : String)
    (hpre : ∀ c ∈ pre.data, c ≠ '$') (hpost : ∀ c ∈ post.data, c ≠ '$')
    (hne : ref.data ≠ []) (hnb : ∀ c ∈ ref.data, c ≠ '}') :
    (∀ v, VarProc.resolveVariableReference (String.mk (VarProc.trimChars ref.data)) vars = .ok v →
      VarProc.processString (pre ++ "$\x7b" ++ ref ++ "\x7d" ++ post) vars =
        .ok (pre ++ VarProc.sanitiseResolvedValue v ++ post)) ∧
    (∀ e, VarProc.resolveVariableReference (String.mk (VarProc.trimChars ref.data)) vars = .error e →
      VarProc.processString (pre ++ "$\x7b" ++ ref ++ "\x7d" ++ post) vars = .error e) ∧
    (∀ s, VarProc.sanitiseResolvedValue (.str s) = s) ∧
    (∀ b, VarProc.sanitiseResolvedValue (.bool b) = (if b then "true" else "false")) ∧
    (∀ n : Int, (toString n).length ≤ 1000 →
      VarProc.sanitiseResolvedValue (.num n) = toString n) := by
  have hdata : (pre ++ "$\x7b" ++ ref ++ "\x7d" ++ post).data =
      pre.data ++ ('$' :: '{' :: (ref.data ++ '}' :: post.data)) := by
    have h1 : ("$\x7b" : String).data = ['$', '{'] := rfl
    have h2 : ("\x7d" : String).data = ['}'] := rfl
    simp [strDataAppend, h1, h2]
  refine ⟨?_, ?_, fun s => rfl, ?_, ?_⟩
  · intro v hv
    simp only [VarProc.processString, hdata,
      interpolate_append_prefix vars _ hpre,
      interpolate_token vars ref.data post.data hne hnb hpost, hv]
    rw [strCat3]
  · intro e he
    simp only [VarProc.processString, hdata,
      interpolate_append_prefix vars _ hpre,
      interpolate_token vars ref.data post.data hne hnb hpost, he]
  · intro b
    cases b <;> simp +decide [VarProc.sanitiseResolvedValue, jsToString]
  · intro n hlen
    have hnot : ¬ ((toString n).length > 1000) := by omega
    simp [VarProc.sanitiseResolvedValue, jsToString, hnot]

/-- C5, witnessed at the concrete template text `About $\x7btopic\x7d`
with `topic = "x"`. -/
theorem C5_witness :
    (VarProc.resolveVariableReference
        (String.mk (VarProc.trimChars ("topic" : String).data))
        [("topic", true, JSValue.str "x")] = .ok (.str "x")) ∧
    VarProc.processString "About $\x7btopic\x7d" [("topic", true, JSValue.str "x")] =
      .ok "About x" := by
  have hres : VarProc.resolveVariableReference
      (String.mk (VarProc.trimChars ("topic" : String).data))
      [("topic", true, JSValue.str "x")] = .ok (.str "x") := by
    simp +decide [VarProc.resolveVariableReference, VarProc.parseVariableReference,
      VarProc.parseRefLoop, VarProc.collectIdx, VarProc.resolveParts,
      VarProc.isValidVariableReference, VarProc.trimChars]
    rfl
  refine ⟨hres, ?_⟩
  have happ := (C5_interpolation [("topic", true, JSValue.str "x")] "topic" "About " ""
      (by decide) (by decide) (by decide) (by decide)).1 (.str "x") hres
  rw [show ("About $\x7btopic\x7d" : String) =
        "About " ++ "$\x7b" ++ "topic" ++ "\x7d" ++ "" from rfl,
      show ("About x" : String) =
        "About " ++ VarProc.sanitiseResolvedValue (.str "x") ++ "" from rfl]
  exact happ

end Claims

end ITS
